import Mathlib

/-!
# Verification of the ChatCityPlatform transit-pipeline core

A shallow embedding, in Lean 4, of the algorithmic core of the
ChatCityPlatform repository (stop-to-lane matching, route-edge stitching
with downstream-order validation and pruning, constraint-relaxation trip
planning, timetable feasibility validation, and service-group selection),
together with theorems settling the specification claims about it.

Conventions used throughout:
* Python floats are modelled as exact numbers (`ℚ` for distances,
  positions and lengths; `ℝ` where trigonometry is involved).
* Python dicts that are only read through `.get` are modelled as
  functions into `Option`; dicts iterated in insertion order are
  modelled as association lists.
* A Python function that can `raise` is modelled with `Except`/`Option`.
* External services (the sumolib network object, TraCI, duarouter) are
  modelled as function parameters at the exact interface the code calls.
-/

namespace ChatCity

/-! ## Generic list helpers -/

/-- First index of `e` in `es` (models a linear scan `for j in range(0, len(es))`). -/
def findAt (e : String) : List String → Option Nat
  | [] => none
  | x :: xs => if x = e then some 0 else (findAt e xs).map (· + 1)

/-- First index `j ≥ start` with `es[j] = e`
(models `for j in range(start, len(route_edges))`). -/
def findFrom (es : List String) (e : String) (start : Nat) : Option Nat :=
  (findAt e (es.drop start)).map (start + ·)

theorem findAt_eq_some {e : String} {es : List String} {j : Nat}
    (h : findAt e es = some j) : es[j]? = some e := by
  induction es generalizing j with
  | nil => simp [findAt] at h
  | cons x xs ih =>
    by_cases hx : x = e
    · simp [findAt, hx] at h
      subst h; simp [hx]
    · simp [findAt, hx] at h
      obtain ⟨j', hj', rfl⟩ := h
      simpa using ih hj'

theorem findAt_cons_ne {e x : String} {xs : List String} (hx : x ≠ e) :
    findAt e (x :: xs) = (findAt e xs).map (· + 1) := by
  simp [findAt, hx]

theorem findFrom_eq_some {es : List String} {e : String} {start j : Nat}
    (h : findFrom es e start = some j) : start ≤ j ∧ es[j]? = some e := by
  unfold findFrom at h
  obtain ⟨j', hj', rfl⟩ := Option.map_eq_some'.mp h
  refine ⟨Nat.le_add_right _ _, ?_⟩
  have := findAt_eq_some hj'
  rwa [List.getElem?_drop] at this

/-- Searching for a *different* edge may start one position later: if the
entry at `start` is not `e`, the first occurrence of `e` at or after
`start` is the first occurrence strictly after `start`. -/
theorem findFrom_shift {es : List String} {e x : String} {start : Nat}
    (hs : es[start]? = some x) (hne : x ≠ e) :
    findFrom es e start = findFrom es e (start + 1) := by
  have hlt : start < es.length := by
    by_contra hge
    rw [List.getElem?_eq_none (Nat.le_of_not_lt hge)] at hs
    exact Option.noConfusion hs
  have hdrop : es.drop start = es[start] :: es.drop (start + 1) :=
    List.drop_eq_getElem_cons hlt
  have hx : es[start] = x := by
    have := List.getElem?_eq_getElem hlt
    rw [this] at hs; exact Option.some.inj hs
  unfold findFrom
  rw [hdrop, hx, findAt_cons_ne hne, Option.map_map]
  congr 1
  funext k
  simp only [Function.comp]
  omega

/-- First element of a nonempty list maximizing `f` (models Python
`max(xs, key=f)`, which keeps the current best on ties). -/
def firstMaxBy {α : Type} (f : α → Nat) (x : α) (xs : List α) : α :=
  xs.foldl (fun best y => if f best < f y then y else best) x

theorem firstMaxBy_cons {α : Type} (f : α → Nat) (x z : α) (zs : List α) :
    firstMaxBy f x (z :: zs) = firstMaxBy f (if f x < f z then z else x) zs := rfl

theorem firstMaxBy_spec {α : Type} (f : α → Nat) (x : α) (xs : List α) :
    firstMaxBy f x xs ∈ x :: xs ∧ ∀ y ∈ x :: xs, f y ≤ f (firstMaxBy f x xs) := by
  induction xs generalizing x with
  | nil => simp [firstMaxBy]
  | cons z zs ih =>
    rw [firstMaxBy_cons]
    by_cases h : f x < f z
    · simp only [if_pos h]
      obtain ⟨hmem, hmax⟩ := ih z
      refine ⟨?_, ?_⟩
      · rcases List.mem_cons.mp hmem with h1 | h1
        · exact List.mem_cons_of_mem _ (by simp [h1])
        · exact List.mem_cons_of_mem _ (List.mem_cons_of_mem _ h1)
      · intro y hy
        rcases List.mem_cons.mp hy with h2 | hy'
        · subst h2
          exact le_of_lt (lt_of_lt_of_le h (hmax z (List.mem_cons_self _ _)))
        · exact hmax y hy'
    · simp only [if_neg h]
      obtain ⟨hmem, hmax⟩ := ih x
      refine ⟨?_, ?_⟩
      · rcases List.mem_cons.mp hmem with h1 | h1
        · simp [h1]
        · exact List.mem_cons_of_mem _ (List.mem_cons_of_mem _ h1)
      · intro y hy
        rcases List.mem_cons.mp hy with h2 | hy'
        · subst h2
          exact hmax y (List.mem_cons_self _ _)
        · rcases List.mem_cons.mp hy' with h2 | hy''
          · subst h2
            exact le_trans (Nat.le_of_not_lt h) (hmax x (List.mem_cons_self _ _))
          · exact hmax y (List.mem_cons_of_mem _ hy'')

/-- Two association-list entries with the same key in a list whose keys
are `Nodup` have the same value. -/
theorem assoc_eq_of_nodup {α β : Type} {l : List (α × β)} (hn : (l.map Prod.fst).Nodup)
    {a : α} {b c : β} (hb : (a, b) ∈ l) (hc : (a, c) ∈ l) : b = c := by
  induction l with
  | nil => simp at hb
  | cons p ps ih =>
    have hn2 : (ps.map Prod.fst).Nodup := (List.nodup_cons.mp hn).2
    have hhead : p.1 ∉ ps.map Prod.fst := (List.nodup_cons.mp hn).1
    rcases List.mem_cons.mp hb with hb1 | hb2
    · rcases List.mem_cons.mp hc with hc1 | hc2
      · rw [← hb1] at hc1
        exact (congrArg Prod.snd hc1).symm
      · exact absurd (by rw [← hb1]; exact List.mem_map.mpr ⟨(a, c), hc2, rfl⟩) hhead
    · rcases List.mem_cons.mp hc with hc1 | hc2
      · exact absurd (by rw [← hc1]; exact List.mem_map.mpr ⟨(a, b), hb2, rfl⟩) hhead
      · exact ih hn2 hb2 hc2


/-! ## Embedding of `tools/fill_pt_route_edges_and_prune.py`

The Route Stitcher: fills `<route edges="...">` from stop sequences and a
network, validates downstream order, and prunes routes and vehicles. -/

namespace FillPrune

open ChatCity

/-- The three per-stop lookup tables parsed from the mapped-stops
`.add.xml` files (`_load_stop_edge_map`, `_load_stop_startpos_map`,
`_load_stop_posrange_map`), modelled as functions into `Option`. -/
structure StopMaps where
  stopToEdge : String → Option String
  stopToStartpos : String → Option ℚ
  stopToPosrange : String → Option (Option ℚ × Option ℚ)

/-- `stop_to_edge.get(sid)` followed by the code's `if not e` truthiness
test: an empty-string edge id behaves like a missing one. -/
def getEdge (m : StopMaps) (sid : String) : Option String :=
  match m.stopToEdge sid with
  | none => none
  | some e => if e = "" then none else some e

/-- Per-stop position resolution inside `_is_stop_sequence_downstream`:
`pos_start, pos_end = stop_to_posrange.get(sid, (None, None))`, falling
back to `stop_to_startpos` for the start and to the start for the end. -/
def resolvePos (m : StopMaps) (sid : String) : Option ℚ × Option ℚ :=
  let pr := (m.stopToPosrange sid).getD (none, none)
  let posStart := match pr.1 with
    | none => m.stopToStartpos sid
    | some v => some v
  let posEnd := match pr.2 with
    | none => posStart
    | some v => some v
  (posStart, posEnd)

/-- State of the main loop of `_is_stop_sequence_downstream` after at
least one stop was matched: `(prev_edge, prev_pos_end, idx)`.  `none`
is the initial state (`prev_edge = None`, `idx = -1`, so the first
search starts at path index `0`). -/
abbrev DownState := Option (String × Option ℚ × Nat)

/-- The main loop of `_is_stop_sequence_downstream` (source lines
168-202), one iteration per stop id. -/
def downstreamLoop (m : StopMaps) (routeEdges : List String) (eps : ℚ) :
    List String → DownState → Bool
  | [], _ => true
  | sid :: rest, st =>
    match getEdge m sid with
    | none => false
    | some e =>
      -- find the next occurrence of the edge after the last matched index
      match findFrom routeEdges e (match st with
        | none => 0
        | some (prevEdge, _, idx) => if e = prevEdge then idx else idx + 1) with
      | none => false
      | some found =>
        -- still on the same edge occurrence: the next stop must begin
        -- after the previous stop's end
        if (match st, (resolvePos m sid).1 with
            | some (prevEdge, some prevPosEnd, idx), some posStart =>
              prevEdge = e && found = idx && posStart + eps < prevPosEnd
            | _, _ => false)
        then false
        else downstreamLoop m routeEdges eps rest (some (e, (resolvePos m sid).2, found))

/-- `_is_stop_sequence_downstream` with its default `eps = 1e-3`. -/
def is_stop_sequence_downstream (m : StopMaps) (routeEdges stopIds : List String)
    (eps : ℚ := 1/1000) : Bool :=
  if routeEdges.isEmpty || stopIds.length < 2 then false
  else downstreamLoop m routeEdges eps stopIds none

/-- Segment paths for every consecutive stop-edge pair after the first,
each with its first edge dropped (`full.extend(seg[1:])`), concatenated.
`sp` models the memoized `net.getShortestPath` query
(`_shortest_path_edges_cached`); the cache is semantically transparent
because `sp` is a function.  A `none` or empty segment is the code's
`if not seg` failure. -/
def segTail (sp : String → String → Option (List String)) :
    String → List String → Option (List String)
  | _, [] => some []
  | a, b :: rest =>
    match sp a b with
    | none => none
    | some [] => none
    | some seg =>
      match segTail sp b rest with
      | none => none
      | some tail => some (seg.drop 1 ++ tail)

/-- The concatenated edge path for a stop-edge list (the `full` list in
`fill_edges_and_prune`, sumolib method): the first segment in full, each
later segment with its leading shared edge dropped. -/
def buildFull (sp : String → String → Option (List String)) :
    List String → Option (List String)
  | [] => none
  | [_] => none
  | a :: b :: rest =>
    match sp a b with
    | none => none
    | some [] => none
    | some seg =>
      match segTail sp b rest with
      | none => none
      | some tail => some (seg ++ tail)

/-- Per-route outcome of `fill_edges_and_prune`; constructors correspond
one-to-one to the drop-reason counters of `Stats` plus the kept case. -/
inductive RouteOutcome
  | droppedMissingStop
  | droppedNoPath
  | droppedDuarouterMissing
  | droppedNotDownstream
  | kept (edges : List String)
deriving DecidableEq

/-- How route edges are produced: `--method sumolib` queries pairwise
shortest paths; `--method duarouter` reads back a batch-routing result,
modelled as a map from route id to the edge list parsed from the
`edges` attribute (`none` when the id is absent or the attribute
empty). -/
inductive Method
  | sumolib (sp : String → String → Option (List String))
  | duarouter (computed : String → Option (List String))

/-- Result of the stitching stage of one route, before the downstream
check: either a drop reason or a built edge path. -/
inductive StitchResult
  | failedMissingStop
  | failedNoPath
  | failedDuarouterMissing
  | built (edges : List String)
deriving DecidableEq

/-- The stitching stage of the per-route loop bodies of
`fill_edges_and_prune` (source lines 324-341 plus the path construction
in 347-363 for sumolib, 392-398 for duarouter): drop the route when it
has fewer than two stops or an unmapped stop, then obtain the edge path
(failing when a sumolib segment is missing/empty, or when duarouter
returned nothing for the route id). -/
def stitchStage (method : Method) (m : StopMaps) (rid : String)
    (seq : List String) : StitchResult :=
  if seq.length < 2 then .failedMissingStop
  else
    match seq.mapM (getEdge m) with
    | none => .failedMissingStop
    | some stopEdges =>
      match method with
      | .sumolib sp =>
        match buildFull sp stopEdges with
        | none => .failedNoPath
        | some [] => .failedNoPath  -- `if not ok or not full`
        | some full => .built full
      | .duarouter computed =>
        match computed rid with
        | none => .failedDuarouterMissing
        | some [] => .failedDuarouterMissing
        | some edgeList => .built edgeList

/-- Classification of one `<route>` element by `fill_edges_and_prune`:
the stitching stage followed by the downstream check (source lines
368-381 for sumolib, 399-413 for duarouter). -/
def classifyRoute (method : Method) (m : StopMaps) (rid : String)
    (seq : List String) : RouteOutcome :=
  match stitchStage method m rid seq with
  | .failedMissingStop => .droppedMissingStop
  | .failedNoPath => .droppedNoPath
  | .failedDuarouterMissing => .droppedDuarouterMissing
  | .built es =>
    if is_stop_sequence_downstream m es seq then .kept es
    else .droppedNotDownstream

/-- The `Stats` dataclass.  The two cache-telemetry counters
(`segments_total`, `segments_cached`) are performance-only and are not
modelled. -/
structure Stats where
  routes_total : Nat
  routes_kept : Nat
  routes_dropped_missing_stop : Nat
  routes_dropped_no_path : Nat
  routes_dropped_duarouter_missing : Nat
  routes_dropped_not_downstream : Nat
  vehicles_total : Nat
  vehicles_kept : Nat
  vehicles_dropped_route_missing : Nat
deriving DecidableEq

/-- Predicate for each drop counter. -/
def isMissingStop : RouteOutcome → Bool
  | .droppedMissingStop => true
  | _ => false

def isNoPath : RouteOutcome → Bool
  | .droppedNoPath => true
  | _ => false

def isDuarouterMissing : RouteOutcome → Bool
  | .droppedDuarouterMissing => true
  | _ => false

def isNotDownstream : RouteOutcome → Bool
  | .droppedNotDownstream => true
  | _ => false

def isKept : RouteOutcome → Bool
  | .kept _ => true
  | _ => false

/-- Result of `fill_edges_and_prune`: the kept routes (id with filled
edge path), the kept vehicles (id with route reference), and the
statistics.  `routes` models the parsed `<route>` elements as
`(id, stops_sequence)` pairs — routes without an id are already excluded
by the source's comprehension — and `vehicles` models `<vehicle>`
elements as `(id, route-attribute)` pairs. -/
structure FillResult where
  validRoutes : List (String × List String)
  keptVehicles : List (String × String)
  stats : Stats

/-- Whether a vehicle is kept: `if rid and rid in valid_route_ids`. -/
def vehicleKept (validIds : List String) (v : String × String) : Bool :=
  v.2 ≠ "" && validIds.contains v.2

def fill_edges_and_prune (method : Method) (m : StopMaps)
    (routes : List (String × List String)) (vehicles : List (String × String)) :
    FillResult :=
  let outcomes := routes.map (fun r => (r.1, classifyRoute method m r.1 r.2))
  let validRoutes := routes.filterMap (fun r =>
    match classifyRoute method m r.1 r.2 with
    | .kept es => some (r.1, es)
    | _ => none)
  let validIds := validRoutes.map Prod.fst
  let keptVehicles := vehicles.filter (vehicleKept validIds)
  { validRoutes := validRoutes
    keptVehicles := keptVehicles
    stats :=
      { routes_total := routes.length
        routes_kept := outcomes.countP (fun o => isKept o.2)
        routes_dropped_missing_stop := outcomes.countP (fun o => isMissingStop o.2)
        routes_dropped_no_path := outcomes.countP (fun o => isNoPath o.2)
        routes_dropped_duarouter_missing :=
          outcomes.countP (fun o => isDuarouterMissing o.2)
        routes_dropped_not_downstream :=
          outcomes.countP (fun o => isNotDownstream o.2)
        vehicles_total := vehicles.length
        vehicles_kept := vehicles.countP (vehicleKept validIds)
        vehicles_dropped_route_missing :=
          vehicles.countP (fun v => !vehicleKept validIds v) } }

end FillPrune


namespace FillPrune

/-- The path that the stitcher computes for a route *before* the
downstream check: the concatenated sumolib shortest-path segments, or
the duarouter-returned edge list.  `none` when the route never reaches
the downstream check (too few stops, unmapped stop, missing path). -/
def stitchedPath (method : Method) (m : StopMaps) (rid : String)
    (seq : List String) : Option (List String) :=
  match stitchStage method m rid seq with
  | .built es => some es
  | _ => none

/-- The downstream-order property exactly as the specification claim
words it: walking the concatenated edge path once left to right, every
stop's assigned edge is found at or after the path index matched for
the previous stop, and whenever two consecutive stops match the same
path occurrence of the same edge, the second stop's along-lane start
position is at least the first stop's along-lane end position minus the
tolerance (positions can be absent from the mapping files, in which
case the position constraint is vacuous).  The state carries the
previous stop's matched path index and along-lane end position. -/
def claimWalk (m : StopMaps) (es : List String) (eps : ℚ) :
    List String → Option (Nat × Option ℚ) → Prop
  | [], _ => True
  | sid :: rest, prev =>
    ∃ e j,
      getEdge m sid = some e ∧
      findFrom es e (match prev with | none => 0 | some (idx, _) => idx) = some j ∧
      (∀ idx ppe, prev = some (idx, some ppe) → j = idx →
        ∀ posStart, (resolvePos m sid).1 = some posStart → ppe - eps ≤ posStart) ∧
      claimWalk m es eps rest (some (j, (resolvePos m sid).2))

/-- Unfolding equation for `claimWalk` on a nonempty stop list. -/
theorem claimWalk_cons (m : StopMaps) (es : List String) (eps : ℚ)
    (sid : String) (rest : List String) (prev : Option (Nat × Option ℚ)) :
    claimWalk m es eps (sid :: rest) prev ↔
      ∃ e j,
        getEdge m sid = some e ∧
        findFrom es e (match prev with | none => 0 | some (idx, _) => idx) = some j ∧
        (∀ idx ppe, prev = some (idx, some ppe) → j = idx →
          ∀ posStart, (resolvePos m sid).1 = some posStart → ppe - eps ≤ posStart) ∧
        claimWalk m es eps rest (some (j, (resolvePos m sid).2)) := Iff.rfl

/-- The loop of `_is_stop_sequence_downstream` implements exactly the
walk described by the claim, given the invariant that the state's path
index points at the previous stop's edge. -/
theorem downstreamLoop_iff_claimWalk (m : StopMaps) (es : List String) (eps : ℚ) :
    ∀ (stops : List String) (st : DownState),
      (∀ pe ppe idx, st = some (pe, ppe, idx) → es[idx]? = some pe) →
      (downstreamLoop m es eps stops st = true ↔
        claimWalk m es eps stops (st.map (fun s => (s.2.2, s.2.1)))) := by
  intro stops
  induction stops with
  | nil => rintro (_ | ⟨pe, ppe, idx⟩) _ <;> simp [downstreamLoop, claimWalk]
  | cons sid rest ih =>
    rintro (_ | ⟨pe, ppe, idx⟩) hinv
    · -- initial state: both walks search from index 0 and there is no
      -- position constraint yet
      cases hE : getEdge m sid with
      | none =>
        rw [show (Option.map (fun s => (s.2.2, s.2.1)) (none : DownState)) = none from rfl,
          claimWalk_cons]
        simp [downstreamLoop, hE]
      | some e =>
        cases hF : findFrom es e 0 with
        | none =>
          have hcode : downstreamLoop m es eps (sid :: rest) none = false := by
            simp only [downstreamLoop, hE]
            rw [hF]
          rw [hcode, show (Option.map (fun s => (s.2.2, s.2.1)) (none : DownState)) = none
            from rfl, claimWalk_cons]
          simp only [Bool.false_eq_true, false_iff]
          rintro ⟨e', j', hE', hF', _, _⟩
          rw [hE] at hE'
          obtain rfl := Option.some.inj hE'
          have hF2 : findFrom es e 0 = some j' := hF'
          rw [hF] at hF2
          exact Option.noConfusion hF2
        | some j =>
          have hj : es[j]? = some e := (findFrom_eq_some hF).2
          have hrec := ih (some (e, (resolvePos m sid).2, j)) (by
            rintro pe' ppe' idx' h
            injection h with h
            injection h with h1 h2
            injection h2 with h2a h2b
            subst h1 h2b
            exact hj)
          have hcode : downstreamLoop m es eps (sid :: rest) none =
              downstreamLoop m es eps rest (some (e, (resolvePos m sid).2, j)) := by
            simp only [downstreamLoop, hE]
            rw [hF]
            cases (resolvePos m sid).1 <;> rfl
          rw [hcode, show (Option.map (fun s => (s.2.2, s.2.1)) (none : DownState)) = none
            from rfl, claimWalk_cons]
          constructor
          · intro h
            refine ⟨e, j, hE, (by exact hF), ?_, (by exact hrec.mp h)⟩
            rintro idx' ppe' hcon
            exact Option.noConfusion hcon
          · rintro ⟨e', j', hE', hF', _, hrest⟩
            rw [hE] at hE'
            obtain rfl := Option.some.inj hE'
            have hF2 : findFrom es e 0 = some j' := hF'
            rw [hF] at hF2
            obtain rfl := Option.some.inj hF2
            exact hrec.mpr hrest
    · -- running state (pe, ppe, idx) with es[idx]? = some pe
      have hidx : es[idx]? = some pe := hinv pe ppe idx rfl
      have hmap : Option.map (fun s => (s.2.2, s.2.1))
          (some (pe, ppe, idx) : DownState) = some (idx, ppe) := rfl
      cases hE : getEdge m sid with
      | none =>
        rw [hmap, claimWalk_cons]
        simp [downstreamLoop, hE]
      | some e =>
        have hshift : findFrom es e (if e = pe then idx else idx + 1) =
            findFrom es e idx := by
          by_cases h : e = pe
          · simp [h]
          · rw [if_neg h]
            exact (findFrom_shift hidx (fun hx => h hx.symm)).symm
        cases hF : findFrom es e idx with
        | none =>
          have hcode :
              downstreamLoop m es eps (sid :: rest) (some (pe, ppe, idx)) = false := by
            simp only [downstreamLoop, hE]
            rw [hshift, hF]
          rw [hcode, hmap, claimWalk_cons]
          simp only [Bool.false_eq_true, false_iff]
          rintro ⟨e', j', hE', hF', _, _⟩
          rw [hE] at hE'
          obtain rfl := Option.some.inj hE'
          have hF2 : findFrom es e idx = some j' := hF'
          rw [hF] at hF2
          exact Option.noConfusion hF2
        | some j =>
          have hj : es[j]? = some e := (findFrom_eq_some hF).2
          have hpe_of_idx : j = idx → pe = e := by
            intro hji
            rw [hji] at hj
            rw [hj] at hidx
            exact (Option.some.inj hidx).symm
          have hrec := ih (some (e, (resolvePos m sid).2, j)) (by
            rintro pe' ppe' idx' h
            injection h with h
            injection h with h1 h2
            injection h2 with h2a h2b
            subst h1 h2b
            exact hj)
          cases hppe : ppe with
          | none =>
            -- no previous end position: the code performs no backward
            -- check, and the claim's position constraint is vacuous
            have hcode :
                downstreamLoop m es eps (sid :: rest) (some (pe, none, idx)) =
                downstreamLoop m es eps rest (some (e, (resolvePos m sid).2, j)) := by
              simp only [downstreamLoop, hE]
              rw [hshift, hF]
              cases (resolvePos m sid).1 <;> rfl
            rw [hcode, show (Option.map (fun s => (s.2.2, s.2.1))
              (some (pe, none, idx) : DownState)) = some (idx, none) from rfl,
              claimWalk_cons]
            constructor
            · intro h
              refine ⟨e, j, hE, (by exact hF), ?_, (by exact hrec.mp h)⟩
              rintro idx' ppe' hcon
              exfalso
              injection hcon with hcon
              injection hcon with h1 h2
              exact Option.noConfusion h2
            · rintro ⟨e', j', hE', hF', _, hrest⟩
              rw [hE] at hE'
              obtain rfl := Option.some.inj hE'
              have hF2 : findFrom es e idx = some j' := hF'
              rw [hF] at hF2
              obtain rfl := Option.some.inj hF2
              exact hrec.mpr hrest
          | some ppeV =>
            cases hps : (resolvePos m sid).1 with
            | none =>
              -- this stop has no start position: again no backward check
              have hcode :
                  downstreamLoop m es eps (sid :: rest) (some (pe, some ppeV, idx)) =
                  downstreamLoop m es eps rest (some (e, (resolvePos m sid).2, j)) := by
                simp only [downstreamLoop, hE]
                rw [hshift, hF, hps]
                rfl
              rw [hcode, show (Option.map (fun s => (s.2.2, s.2.1))
                (some (pe, some ppeV, idx) : DownState)) = some (idx, some ppeV) from rfl,
                claimWalk_cons]
              constructor
              · intro h
                refine ⟨e, j, hE, (by exact hF), ?_, (by exact hrec.mp h)⟩
                rintro idx' ppe' hcon hji posStart hpos
                rw [hps] at hpos
                exact Option.noConfusion hpos
              · rintro ⟨e', j', hE', hF', _, hrest⟩
                rw [hE] at hE'
                obtain rfl := Option.some.inj hE'
                have hF2 : findFrom es e idx = some j' := hF'
                rw [hF] at hF2
                obtain rfl := Option.some.inj hF2
                exact hrec.mpr hrest
            | some psV =>
              have hcode :
                  downstreamLoop m es eps (sid :: rest) (some (pe, some ppeV, idx)) =
                  (if (decide (pe = e) && decide (j = idx) &&
                       decide (psV + eps < ppeV)) = true
                   then false
                   else downstreamLoop m es eps rest
                     (some (e, (resolvePos m sid).2, j))) := by
                simp only [downstreamLoop, hE]
                rw [hshift, hF, hps]
              rw [hcode, show (Option.map (fun s => (s.2.2, s.2.1))
                (some (pe, some ppeV, idx) : DownState)) = some (idx, some ppeV) from rfl,
                claimWalk_cons]
              by_cases hb : pe = e ∧ j = idx ∧ psV + eps < ppeV
              · -- the code drops the route: the claim's position
                -- constraint indeed fails
                have hcond : (decide (pe = e) && decide (j = idx) &&
                    decide (psV + eps < ppeV)) = true := by
                  simp [hb.1, hb.2.1, hb.2.2]
                rw [if_pos hcond]
                simp only [Bool.false_eq_true, false_iff]
                rintro ⟨e', j', hE', hF', hcondClaim, _⟩
                rw [hE] at hE'
                obtain rfl := Option.some.inj hE'
                have hF2 : findFrom es e idx = some j' := hF'
                rw [hF] at hF2
                obtain rfl := Option.some.inj hF2
                have := hcondClaim idx ppeV rfl hb.2.1 psV hps
                linarith [hb.2.2]
              · -- the code accepts this pair: the claim's position
                -- constraint holds
                have hcond : ¬ ((decide (pe = e) && decide (j = idx) &&
                    decide (psV + eps < ppeV)) = true) := by
                  intro hx
                  simp only [Bool.and_eq_true, decide_eq_true_eq] at hx
                  exact hb ⟨hx.1.1, hx.1.2, hx.2⟩
                rw [if_neg hcond]
                constructor
                · intro h
                  refine ⟨e, j, hE, (by exact hF), ?_, (by exact hrec.mp h)⟩
                  rintro idx' ppe' hcon hji posStart hpos
                  injection hcon with hcon
                  injection hcon with h1 h2
                  injection h2 with h2
                  subst h1 h2
                  rw [hps] at hpos
                  obtain rfl := Option.some.inj hpos
                  have hji2 : j = idx := hji
                  have hpeE : pe = e := hpe_of_idx hji2
                  have hnlt : ¬ psV + eps < ppeV := fun h3 => hb ⟨hpeE, hji2, h3⟩
                  linarith [not_lt.mp hnlt]
                · rintro ⟨e', j', hE', hF', _, hrest⟩
                  rw [hE] at hE'
                  obtain rfl := Option.some.inj hE'
                  have hF2 : findFrom es e idx = some j' := hF'
                  rw [hF] at hF2
                  obtain rfl := Option.some.inj hF2
                  exact hrec.mpr hrest

end FillPrune


namespace FillPrune

/-- `_is_stop_sequence_downstream` succeeds exactly when the path is
nonempty, there are at least two stops, and the claim's downstream walk
succeeds. -/
theorem is_stop_sequence_downstream_iff (m : StopMaps) (es stops : List String)
    (eps : ℚ) :
    is_stop_sequence_downstream m es stops eps = true ↔
      (es ≠ [] ∧ 2 ≤ stops.length ∧ claimWalk m es eps stops none) := by
  unfold is_stop_sequence_downstream
  by_cases h1 : es = []
  · subst h1
    simp
  · by_cases h2 : stops.length < 2
    · have : ¬ 2 ≤ stops.length := Nat.not_le.mpr h2
      simp [List.isEmpty_iff, h1, h2, this]
    · have h2' : 2 ≤ stops.length := Nat.le_of_not_lt h2
      have hiff := downstreamLoop_iff_claimWalk m es eps stops none
        (by intro pe ppe idx h; exact Option.noConfusion h)
      simp only [Option.map_none'] at hiff
      simp [List.isEmpty_iff, h1, h2, h2', hiff]

/-- A route is kept exactly when a path was stitched for it and the
downstream check passed on that path. -/
theorem classifyRoute_kept_iff (method : Method) (m : StopMaps) (rid : String)
    (seq es : List String) :
    classifyRoute method m rid seq = .kept es ↔
      (stitchedPath method m rid seq = some es ∧
        is_stop_sequence_downstream m es seq = true) := by
  unfold classifyRoute stitchedPath
  cases hs : stitchStage method m rid seq with
  | failedMissingStop => simp
  | failedNoPath => simp
  | failedDuarouterMissing => simp
  | built es' =>
    by_cases hd : is_stop_sequence_downstream m es' seq = true
    · simp only [hd, if_true, Option.some.injEq]
      constructor
      · intro h
        have h1 : es' = es := by injection h
        subst h1
        exact ⟨rfl, hd⟩
      · rintro ⟨h1, _⟩
        subst h1
        rfl
    · rw [Bool.not_eq_true] at hd
      simp only [hd, Bool.false_eq_true, if_false, Option.some.injEq]
      constructor
      · intro h
        exact absurd h (by simp)
      · rintro ⟨h1, h2⟩
        subst h1
        rw [hd] at h2
        exact absurd h2 (by simp)

/-- A route whose stitched path fails the downstream check is dropped
with reason not-downstream. -/
theorem classifyRoute_notDownstream (method : Method) (m : StopMaps) (rid : String)
    (seq es : List String)
    (hp : stitchedPath method m rid seq = some es)
    (hd : is_stop_sequence_downstream m es seq = false) :
    classifyRoute method m rid seq = .droppedNotDownstream := by
  unfold classifyRoute
  unfold stitchedPath at hp
  cases hs : stitchStage method m rid seq with
  | failedMissingStop => rw [hs] at hp; exact Option.noConfusion hp
  | failedNoPath => rw [hs] at hp; exact Option.noConfusion hp
  | failedDuarouterMissing => rw [hs] at hp; exact Option.noConfusion hp
  | built es' =>
    rw [hs] at hp
    obtain rfl := Option.some.inj hp
    simp only [hd, Bool.false_eq_true, if_false]

/-- Membership in the pruned output characterized by the per-route
classification. -/
theorem mem_validRoutes_iff (method : Method) (m : StopMaps)
    (routes : List (String × List String)) (vehicles : List (String × String))
    (rid : String) (es : List String) :
    (rid, es) ∈ (fill_edges_and_prune method m routes vehicles).validRoutes ↔
      ∃ seq, (rid, seq) ∈ routes ∧ classifyRoute method m rid seq = .kept es := by
  simp only [fill_edges_and_prune]
  rw [List.mem_filterMap]
  constructor
  · rintro ⟨⟨rid', seq'⟩, hmem, hf⟩
    cases hc : classifyRoute method m rid' seq' with
    | kept es' =>
      rw [hc] at hf
      simp only [Option.some.injEq, Prod.mk.injEq] at hf
      obtain ⟨rfl, rfl⟩ := hf
      exact ⟨seq', hmem, hc⟩
    | droppedMissingStop => rw [hc] at hf; exact Option.noConfusion hf
    | droppedNoPath => rw [hc] at hf; exact Option.noConfusion hf
    | droppedDuarouterMissing => rw [hc] at hf; exact Option.noConfusion hf
    | droppedNotDownstream => rw [hc] at hf; exact Option.noConfusion hf
  · rintro ⟨seq, hmem, hc⟩
    exact ⟨(rid, seq), hmem, by rw [hc]⟩

/-- Every `RouteOutcome` satisfies exactly one of the five counters. -/
theorem outcome_partition (l : List (String × RouteOutcome)) :
    l.countP (fun o => isKept o.2) + l.countP (fun o => isMissingStop o.2)
      + l.countP (fun o => isNoPath o.2)
      + l.countP (fun o => isDuarouterMissing o.2)
      + l.countP (fun o => isNotDownstream o.2) = l.length := by
  induction l with
  | nil => simp
  | cons x t ih =>
    obtain ⟨rid, o⟩ := x
    cases o <;>
      simp [List.countP_cons, isKept, isMissingStop, isNoPath,
        isDuarouterMissing, isNotDownstream] at ih ⊢ <;>
      omega

theorem countP_bool_partition {α : Type} (p : α → Bool) (l : List α) :
    l.countP p + l.countP (fun a => !p a) = l.length := by
  induction l with
  | nil => simp
  | cons x t ih =>
    by_cases h : p x = true <;>
      simp only [List.countP_cons, h, List.length_cons] <;>
      simp [h] <;> omega

end FillPrune


namespace FillPrune

/-- Concrete stitching scenario used to instantiate the Route Stitcher
theorems: one pattern of two stops on the same edge `A`, with the first
stop at positions 0-5 and the second at 10-15 on that edge. -/
def exM1 : StopMaps where
  stopToEdge := fun s => if s = "s1" ∨ s = "s2" then some "A" else none
  stopToStartpos := fun _ => none
  stopToPosrange := fun s =>
    if s = "s1" then some (some 0, some 5)
    else if s = "s2" then some (some 10, some 15)
    else none

def exSp1 : String → String → Option (List String) :=
  fun a b => if a = "A" ∧ b = "A" then some ["A"] else none

def exRoutes1 : List (String × List String) := [("r1", ["s1", "s2"])]

def exVehicles1 : List (String × String) := [("v1", "r1"), ("v2", "rX")]

/-- **C1** (Route Stitcher downstream validation): for every pattern
with at least two stops each mapped to an edge, the stitched route is
kept only if walking the concatenated edge path once left to right
succeeds — every stop's assigned edge found at or after the previous
stop's matched path index, and a stop matching the same path occurrence
of the same edge starting no earlier than the previous stop's along-lane
end position minus the tolerance eps = 1e-3 (`claimWalk`); a stitched
route failing this walk is dropped with reason not-downstream and does
not appear in the output. -/
theorem C1_downstream_validation (method : Method) (m : StopMaps)
    (routes : List (String × List String)) (vehicles : List (String × String))
    (rid : String) (seq : List String)
    (hmem : (rid, seq) ∈ routes)
    (hnd : (routes.map Prod.fst).Nodup)
    (h2 : 2 ≤ seq.length) :
    (∀ es, (rid, es) ∈ (fill_edges_and_prune method m routes vehicles).validRoutes →
      es ≠ [] ∧ claimWalk m es (1/1000) seq none) ∧
    (∀ es, stitchedPath method m rid seq = some es →
      ¬ claimWalk m es (1/1000) seq none →
      classifyRoute method m rid seq = .droppedNotDownstream ∧
      ∀ es2, (rid, es2) ∉ (fill_edges_and_prune method m routes vehicles).validRoutes) := by
  constructor
  · intro es hes
    obtain ⟨seq', hmem', hc⟩ :=
      (mem_validRoutes_iff method m routes vehicles rid es).mp hes
    have hseq : seq = seq' := assoc_eq_of_nodup hnd hmem hmem'
    subst hseq
    obtain ⟨hp, hd⟩ := (classifyRoute_kept_iff method m rid seq es).mp hc
    have hiff := (is_stop_sequence_downstream_iff m es seq (1/1000)).mp hd
    exact ⟨hiff.1, hiff.2.2⟩
  · intro es hp hcw
    have hd : is_stop_sequence_downstream m es seq = false := by
      rw [Bool.eq_false_iff]
      intro htrue
      exact hcw ((is_stop_sequence_downstream_iff m es seq (1/1000)).mp htrue).2.2
    refine ⟨classifyRoute_notDownstream method m rid seq es hp hd, ?_⟩
    intro es2 hes2
    obtain ⟨seq', hmem', hc⟩ :=
      (mem_validRoutes_iff method m routes vehicles rid es2).mp hes2
    have hseq : seq = seq' := assoc_eq_of_nodup hnd hmem hmem'
    subst hseq
    have h1 := classifyRoute_notDownstream method m rid seq es hp hd
    rw [h1] at hc
    exact RouteOutcome.noConfusion hc

/-- Witness for `C1_downstream_validation` at the concrete scenario:
all hypotheses are discharged on explicit inputs. -/
theorem C1_downstream_validation_witness :
    (("r1", ["s1", "s2"]) ∈ exRoutes1) ∧ (exRoutes1.map Prod.fst).Nodup ∧
    2 ≤ (["s1", "s2"] : List String).length ∧
    ((∀ es, ("r1", es) ∈
        (fill_edges_and_prune (.sumolib exSp1) exM1 exRoutes1 exVehicles1).validRoutes →
        es ≠ [] ∧ claimWalk exM1 es (1/1000) ["s1", "s2"] none) ∧
      (∀ es, stitchedPath (.sumolib exSp1) exM1 "r1" ["s1", "s2"] = some es →
        ¬ claimWalk exM1 es (1/1000) ["s1", "s2"] none →
        classifyRoute (.sumolib exSp1) exM1 "r1" ["s1", "s2"] = .droppedNotDownstream ∧
        ∀ es2, ("r1", es2) ∉
          (fill_edges_and_prune (.sumolib exSp1) exM1 exRoutes1 exVehicles1).validRoutes)) :=
  ⟨by simp [exRoutes1], by simp [exRoutes1], by norm_num,
    C1_downstream_validation (.sumolib exSp1) exM1 exRoutes1 exVehicles1 "r1" ["s1", "s2"]
      (by simp [exRoutes1]) (by simp [exRoutes1]) (by norm_num)⟩

/-- **C7** (cascade pruning and statistics): every kept vehicle
references a kept route; every vehicle whose referenced route was
dropped, or that references no known route, is dropped; and the returned
statistics partition routes by drop reason and vehicles by kept/dropped,
with `routes_total` and `vehicles_total` equal to the respective sums. -/
theorem C7_cascade_pruning (method : Method) (m : StopMaps)
    (routes : List (String × List String)) (vehicles : List (String × String)) :
    (∀ v ∈ (fill_edges_and_prune method m routes vehicles).keptVehicles,
      v.2 ∈ (fill_edges_and_prune method m routes vehicles).validRoutes.map Prod.fst) ∧
    (∀ v ∈ vehicles,
      v.2 ∉ (fill_edges_and_prune method m routes vehicles).validRoutes.map Prod.fst →
      v ∉ (fill_edges_and_prune method m routes vehicles).keptVehicles) ∧
    (fill_edges_and_prune method m routes vehicles).stats.routes_total = routes.length ∧
    (fill_edges_and_prune method m routes vehicles).stats.routes_total =
      (fill_edges_and_prune method m routes vehicles).stats.routes_kept +
      (fill_edges_and_prune method m routes vehicles).stats.routes_dropped_missing_stop +
      (fill_edges_and_prune method m routes vehicles).stats.routes_dropped_no_path +
      (fill_edges_and_prune method m routes vehicles).stats.routes_dropped_duarouter_missing +
      (fill_edges_and_prune method m routes vehicles).stats.routes_dropped_not_downstream ∧
    (fill_edges_and_prune method m routes vehicles).stats.vehicles_total = vehicles.length ∧
    (fill_edges_and_prune method m routes vehicles).stats.vehicles_total =
      (fill_edges_and_prune method m routes vehicles).stats.vehicles_kept +
      (fill_edges_and_prune method m routes vehicles).stats.vehicles_dropped_route_missing ∧
    (fill_edges_and_prune method m routes vehicles).stats.vehicles_kept =
      (fill_edges_and_prune method m routes vehicles).keptVehicles.length := by
  refine ⟨?_, ?_, ?_, ?_, ?_, ?_, ?_⟩
  · intro v hv
    simp only [fill_edges_and_prune] at hv ⊢
    have hv2 := (List.mem_filter.mp hv).2
    unfold vehicleKept at hv2
    rw [Bool.and_eq_true] at hv2
    have := hv2.2
    simpa using (List.mem_of_elem_eq_true this)
  · intro v hv hnot
    simp only [fill_edges_and_prune] at hnot ⊢
    intro hkept
    have hv2 := (List.mem_filter.mp hkept).2
    unfold vehicleKept at hv2
    rw [Bool.and_eq_true] at hv2
    exact hnot (by simpa using (List.mem_of_elem_eq_true hv2.2))
  · rfl
  · simp only [fill_edges_and_prune]
    have := outcome_partition
      (routes.map (fun r => (r.1, classifyRoute method m r.1 r.2)))
    rw [List.length_map] at this
    omega
  · rfl
  · simp only [fill_edges_and_prune]
    have := countP_bool_partition
      (vehicleKept ((routes.filterMap (fun r =>
        match classifyRoute method m r.1 r.2 with
        | .kept es => some (r.1, es)
        | _ => none)).map Prod.fst)) vehicles
    omega
  · simp only [fill_edges_and_prune]
    exact (List.countP_eq_length_filter _ _).symm ▸ rfl

/-- Witness for `C7_cascade_pruning` at the concrete scenario. -/
theorem C7_cascade_pruning_witness :
    (∀ v ∈ (fill_edges_and_prune (.sumolib exSp1) exM1 exRoutes1 exVehicles1).keptVehicles,
      v.2 ∈ (fill_edges_and_prune (.sumolib exSp1) exM1 exRoutes1
        exVehicles1).validRoutes.map Prod.fst) ∧
    (∀ v ∈ exVehicles1,
      v.2 ∉ (fill_edges_and_prune (.sumolib exSp1) exM1 exRoutes1
        exVehicles1).validRoutes.map Prod.fst →
      v ∉ (fill_edges_and_prune (.sumolib exSp1) exM1 exRoutes1 exVehicles1).keptVehicles) ∧
    (fill_edges_and_prune (.sumolib exSp1) exM1 exRoutes1 exVehicles1).stats.routes_total
      = exRoutes1.length ∧
    (fill_edges_and_prune (.sumolib exSp1) exM1 exRoutes1 exVehicles1).stats.routes_total =
      (fill_edges_and_prune (.sumolib exSp1) exM1 exRoutes1 exVehicles1).stats.routes_kept +
      (fill_edges_and_prune (.sumolib exSp1) exM1 exRoutes1
        exVehicles1).stats.routes_dropped_missing_stop +
      (fill_edges_and_prune (.sumolib exSp1) exM1 exRoutes1
        exVehicles1).stats.routes_dropped_no_path +
      (fill_edges_and_prune (.sumolib exSp1) exM1 exRoutes1
        exVehicles1).stats.routes_dropped_duarouter_missing +
      (fill_edges_and_prune (.sumolib exSp1) exM1 exRoutes1
        exVehicles1).stats.routes_dropped_not_downstream ∧
    (fill_edges_and_prune (.sumolib exSp1) exM1 exRoutes1 exVehicles1).stats.vehicles_total
      = exVehicles1.length ∧
    (fill_edges_and_prune (.sumolib exSp1) exM1 exRoutes1 exVehicles1).stats.vehicles_total =
      (fill_edges_and_prune (.sumolib exSp1) exM1 exRoutes1 exVehicles1).stats.vehicles_kept +
      (fill_edges_and_prune (.sumolib exSp1) exM1 exRoutes1
        exVehicles1).stats.vehicles_dropped_route_missing ∧
    (fill_edges_and_prune (.sumolib exSp1) exM1 exRoutes1 exVehicles1).stats.vehicles_kept =
      (fill_edges_and_prune (.sumolib exSp1) exM1 exRoutes1 exVehicles1).keptVehicles.length :=
  C7_cascade_pruning (.sumolib exSp1) exM1 exRoutes1 exVehicles1

end FillPrune


/-! ## Embedding of `tools/explicit_chains_validate.py`

The Chain Validator: checks a leg chain's structure and, for ride legs,
solves the earliest-arrival sub-problem against the timetable-derived
vehicle stop lists. -/

namespace ChainsValidate

open ChatCity

/-- A `from`/`to` anchor of a leg (the `Ref` dataclass). -/
inductive Ref
  | edge (v : String)
  | busStop (v : String)
deriving DecidableEq

/-- One `<stop>` child of a `<vehicle>` element: `busStop` may be
absent, and `until` is `None` when absent or unparseable
(`_parse_until_seconds`). -/
structure VStop where
  busStop : Option String
  untilT : Option Int  -- the `until` attribute (`until` is a Lean keyword)
deriving DecidableEq

/-- A `<vehicle>` element of a routes file. -/
structure Vehicle where
  id : String
  line : String
  depart : Int
  stops : List VStop
deriving DecidableEq

/-- The scan over a vehicle's stop list inside `_best_vehicle_arrival`
(source lines 131-147): entries with a missing stop id or unparseable
time are skipped; the *first* valid entry naming the from-stop fixes
`from_until`; the first valid entry naming the to-stop after that point
fixes `to_until` and stops the scan.  Returns
`(from_until, to_until)`. -/
def scanFromTo (fromStop toStop : String) :
    List VStop → Option Int → Bool → Option Int × Option Int
  | [], fu, _ => (fu, none)
  | s :: rest, fu, seenFrom =>
    match s.busStop, s.untilT with
    | some bs, some u =>
      if bs = fromStop ∧ fu = none then
        scanFromTo fromStop toStop rest (some u) true
      else if bs = toStop ∧ seenFrom then (fu, some u)
      else scanFromTo fromStop toStop rest fu seenFrom
    | _, _ => scanFromTo fromStop toStop rest fu seenFrom

/-- Feasibility of one vehicle for a ride from `fromStop` to `toStop`
no earlier than `earliest`: both scan results must exist and the
boarding time must be at or after `earliest`; returns
`(from_until, to_until)` on success. -/
def vehFeasible (v : Vehicle) (fromStop toStop : String) (earliest : Int) :
    Option (Int × Int) :=
  match scanFromTo fromStop toStop v.stops none false with
  | (some fu, some tu) => if earliest ≤ fu then some (fu, tu) else none
  | _ => none

/-- The per-ride result record built by `_best_vehicle_arrival`. -/
structure RideBest where
  routesFile : String
  vehicleId : String
  line : String
  vehicleDepart : Int
  fromStop : String
  toStop : String
  boardLatest : Int
  arrivalTime : Int
deriving DecidableEq

def mkBest (fname : String) (v : Vehicle) (fromStop toStop : String)
    (fu tu : Int) : RideBest :=
  { routesFile := fname, vehicleId := v.id, line := v.line,
    vehicleDepart := v.depart, fromStop := fromStop, toStop := toStop,
    boardLatest := fu, arrivalTime := tu }

/-- One iteration of the candidate loop of `_best_vehicle_arrival`:
replace the current best only on a strictly smaller arrival time. -/
def bvaStep (fromStop toStop : String) (earliest : Int)
    (best : Option RideBest) (c : String × Vehicle) : Option RideBest :=
  match vehFeasible c.2 fromStop toStop earliest with
  | none => best
  | some (fu, tu) =>
    match best with
    | none => some (mkBest c.1 c.2 fromStop toStop fu tu)
    | some b =>
      if tu < b.arrivalTime then some (mkBest c.1 c.2 fromStop toStop fu tu)
      else some b

def bvaLoop (fromStop toStop : String) (earliest : Int) :
    List (String × Vehicle) → Option RideBest → Option RideBest
  | [], best => best
  | c :: rest, best =>
    bvaLoop fromStop toStop earliest rest (bvaStep fromStop toStop earliest best c)

/-- The candidates scanned by `_best_vehicle_arrival`: vehicles of the
routes files, in file order then document order, restricted to the
target line set (`_iter_vehicle_candidates`). -/
def candidatesOf (files : List (String × List Vehicle)) (targetLines : List String) :
    List (String × Vehicle) :=
  files.flatMap (fun f =>
    (f.2.filter (fun v => targetLines.contains v.line)).map (fun v => (f.1, v)))

/-- `_best_vehicle_arrival` (source lines 114-166). -/
def best_vehicle_arrival (files : List (String × List Vehicle))
    (targetLines : List String) (fromStop toStop : String) (earliest : Int) :
    Option RideBest :=
  bvaLoop fromStop toStop earliest (candidatesOf files targetLines) none

end ChainsValidate


namespace ChainsValidate

/-- A stop entry usable by the scan and naming `name`. -/
def validEntry (name : String) (s : VStop) : Prop :=
  s.busStop = some name ∧ s.untilT ≠ none

/-- After the from-stop has been fixed, the scan returns the first
usable entry naming the to-stop. -/
def firstToTime (toStop : String) : List VStop → Option Int
  | [] => none
  | s :: rest =>
    match s.busStop, s.untilT with
    | some bs, some u => if bs = toStop then some u else firstToTime toStop rest
    | _, _ => firstToTime toStop rest

theorem scanFromTo_after (fromStop toStop : String) (fu : Int) :
    ∀ stops, scanFromTo fromStop toStop stops (some fu) true =
      (some fu, firstToTime toStop stops) := by
  intro stops
  induction stops with
  | nil => simp [scanFromTo, firstToTime]
  | cons s rest ih =>
    match hbs : s.busStop, hu : s.untilT with
    | some bs, some u =>
      by_cases hbt : bs = toStop
      · simp [scanFromTo, firstToTime, hbs, hu, hbt]
      · simp [scanFromTo, firstToTime, hbs, hu, hbt, ih]
    | some bs, none => simp [scanFromTo, firstToTime, hbs, hu, ih]
    | none, hu2 => simp [scanFromTo, firstToTime, hbs, ih]

theorem scanFromTo_no_from (fromStop toStop : String) :
    ∀ stops, (∀ s ∈ stops, ¬ validEntry fromStop s) →
      scanFromTo fromStop toStop stops none false = (none, none) := by
  intro stops
  induction stops with
  | nil => intro _; simp [scanFromTo]
  | cons s rest ih =>
    intro h
    have hs := h s (List.mem_cons_self ..)
    have hrest := ih (fun s' hs' => h s' (List.mem_cons_of_mem _ hs'))
    match hbs : s.busStop, hu : s.untilT with
    | some bs, some u =>
      have hne : bs ≠ fromStop := by
        intro hbf
        exact hs ⟨by rw [hbs, hbf], by rw [hu]; exact fun hx => Option.noConfusion hx⟩
      simp [scanFromTo, hbs, hu, hne, hrest]
    | some bs, none => simp [scanFromTo, hbs, hu, hrest]
    | none, hu2 => simp [scanFromTo, hbs, hrest]

theorem scanFromTo_first_from (fromStop toStop : String) (l1 : List VStop)
    (s : VStop) (l2 : List VStop) (fu : Int)
    (h1 : ∀ s' ∈ l1, ¬ validEntry fromStop s')
    (hbs : s.busStop = some fromStop) (hu : s.untilT = some fu) :
    scanFromTo fromStop toStop (l1 ++ s :: l2) none false =
      (some fu, firstToTime toStop l2) := by
  induction l1 with
  | nil =>
    simp [scanFromTo, hbs, hu, scanFromTo_after]
  | cons x xs ih =>
    have hx := h1 x (List.mem_cons_self ..)
    have hxs := ih (fun s' hs' => h1 s' (List.mem_cons_of_mem _ hs'))
    match hxbs : x.busStop, hxu : x.untilT with
    | some bs, some u =>
      have hne : bs ≠ fromStop := by
        intro hbf
        exact hx ⟨by rw [hxbs, hbf], by rw [hxu]; exact fun h => Option.noConfusion h⟩
      simp [scanFromTo, hxbs, hxu, hne, hxs]
    | some bs, none => simp [scanFromTo, hxbs, hxu, hxs]
    | none, hxu2 => simp [scanFromTo, hxbs, hxs]

/-- Any stop list either has no usable from-entry or splits at its
first usable from-entry. -/
theorem stops_split (fromStop : String) (stops : List VStop) :
    (∀ s ∈ stops, ¬ validEntry fromStop s) ∨
    ∃ l1 s l2 fu, stops = l1 ++ s :: l2 ∧ s.busStop = some fromStop ∧
      s.untilT = some fu ∧ ∀ s' ∈ l1, ¬ validEntry fromStop s' := by
  induction stops with
  | nil => left; simp
  | cons x xs ih =>
    by_cases hx : validEntry fromStop x
    · right
      obtain ⟨hbs, hu⟩ := hx
      cases hunt : x.untilT with
      | none => exact absurd hunt hu
      | some fu =>
        exact ⟨[], x, xs, fu, by simp, hbs, hunt, by simp⟩
    · rcases ih with h | ⟨l1, s, l2, fu, hsplit, hbs, hu, hl1⟩
      · left
        intro s' hs'
        rcases List.mem_cons.mp hs' with h2 | h2
        · subst h2; exact hx
        · exact h s' h2
      · right
        refine ⟨x :: l1, s, l2, fu, by rw [hsplit, List.cons_append], hbs, hu, ?_⟩
        intro s' hs'
        rcases List.mem_cons.mp hs' with h2 | h2
        · subst h2; exact hx
        · exact hl1 s' h2

theorem firstToTime_isSome_iff (toStop : String) (l : List VStop) :
    (firstToTime toStop l).isSome ↔ ∃ s ∈ l, validEntry toStop s := by
  induction l with
  | nil => simp [firstToTime]
  | cons x xs ih =>
    match hbs : x.busStop, hu : x.untilT with
    | some bs, some u =>
      by_cases hbt : bs = toStop
      · subst hbt
        constructor
        · intro _
          exact ⟨x, List.mem_cons_self ..,
            by rw [hbs], by rw [hu]; exact fun h => Option.noConfusion h⟩
        · intro _
          simp [firstToTime, hbs, hu]
      · simp only [firstToTime, hbs, hu, if_neg hbt]
        rw [ih]
        constructor
        · rintro ⟨s, hs, hv⟩
          exact ⟨s, List.mem_cons_of_mem _ hs, hv⟩
        · rintro ⟨s, hs, hv⟩
          rcases List.mem_cons.mp hs with h2 | h2
          · subst h2
            obtain ⟨hv1, _⟩ := hv
            rw [hbs] at hv1
            exact absurd (Option.some.inj hv1) hbt
          · exact ⟨s, h2, hv⟩
    | some bs, none =>
      simp only [firstToTime, hbs, hu]
      rw [ih]
      constructor
      · rintro ⟨s, hs, hv⟩
        exact ⟨s, List.mem_cons_of_mem _ hs, hv⟩
      · rintro ⟨s, hs, hv⟩
        rcases List.mem_cons.mp hs with h2 | h2
        · subst h2
          obtain ⟨_, hv2⟩ := hv
          rw [hu] at hv2
          exact absurd rfl hv2
        · exact ⟨s, h2, hv⟩
    | none, hu2 =>
      simp only [firstToTime, hbs]
      rw [ih]
      constructor
      · rintro ⟨s, hs, hv⟩
        exact ⟨s, List.mem_cons_of_mem _ hs, hv⟩
      · rintro ⟨s, hs, hv⟩
        rcases List.mem_cons.mp hs with h2 | h2
        · subst h2
          obtain ⟨hv1, _⟩ := hv
          rw [hbs] at hv1
          exact Option.noConfusion hv1
        · exact ⟨s, h2, hv⟩

end ChainsValidate


namespace ChainsValidate

/-- Generic: a list splits at most one way around the first element
satisfying `P`. -/
theorem first_split_unique {α : Type} {P : α → Prop}
    {l1 l1' l2 l2' : List α} {s s' : α}
    (heq : l1 ++ s :: l2 = l1' ++ s' :: l2')
    (h1 : ∀ x ∈ l1, ¬ P x) (hs : P s)
    (h1' : ∀ x ∈ l1', ¬ P x) (hs' : P s') :
    l1 = l1' ∧ s = s' ∧ l2 = l2' := by
  induction l1 generalizing l1' with
  | nil =>
    cases l1' with
    | nil =>
      simp only [List.nil_append] at heq
      injection heq with ha hb
      exact ⟨rfl, ha, hb⟩
    | cons y t =>
      simp only [List.nil_append, List.cons_append] at heq
      injection heq with ha hb
      subst ha
      exact absurd hs (h1' _ (List.mem_cons_self ..))
  | cons x t ih =>
    cases l1' with
    | nil =>
      simp only [List.cons_append, List.nil_append] at heq
      injection heq with ha hb
      subst ha
      exact absurd hs' (h1 _ (List.mem_cons_self ..))
    | cons y t' =>
      simp only [List.cons_append] at heq
      injection heq with ha hb
      subst ha
      obtain ⟨hl, hs2, hl2⟩ := ih hb
        (fun z hz => h1 z (List.mem_cons_of_mem _ hz))
        (fun z hz => h1' z (List.mem_cons_of_mem _ hz))
      exact ⟨by rw [hl], hs2, hl2⟩

/-- Feasibility as implemented: the *first* usable entry naming the from
stop must board at or after the cursor, and a usable entry naming the to
stop must occur later. -/
def firstFromFeasible (v : Vehicle) (fromStop toStop : String)
    (earliest : Int) : Prop :=
  ∃ l1 s l2 fu, v.stops = l1 ++ s :: l2 ∧ s.busStop = some fromStop ∧
    s.untilT = some fu ∧ (∀ s' ∈ l1, ¬ validEntry fromStop s') ∧
    earliest ≤ fu ∧ ∃ s2 ∈ l2, validEntry toStop s2

/-- Feasibility as the original claim words it: the stop list contains
the from stop at *some* boarding time at or after the cursor and
subsequently contains the to stop at a later position with an arrival
time. -/
def claimFeasible (v : Vehicle) (fromStop toStop : String)
    (earliest : Int) : Prop :=
  ∃ l1 s l2 fu, v.stops = l1 ++ s :: l2 ∧ s.busStop = some fromStop ∧
    s.untilT = some fu ∧ earliest ≤ fu ∧ ∃ s2 ∈ l2, validEntry toStop s2

theorem vehFeasible_isSome_iff (v : Vehicle) (f t : String) (e : Int) :
    (vehFeasible v f t e).isSome ↔ firstFromFeasible v f t e := by
  unfold vehFeasible firstFromFeasible
  rcases stops_split f v.stops with hno | ⟨l1, s, l2, fu, hsplit, hbs, hu, hl1⟩
  · rw [scanFromTo_no_from f t v.stops hno]
    simp only [Option.isSome_none, Bool.false_eq_true, false_iff]
    rintro ⟨l1, s, l2, fu, hsplit, hbs, hu, _, _, _⟩
    refine hno s ?_ ⟨hbs, by rw [hu]; exact fun h => Option.noConfusion h⟩
    rw [hsplit]
    exact List.mem_append_right _ (List.mem_cons_self ..)
  · rw [hsplit, scanFromTo_first_from f t l1 s l2 fu hl1 hbs hu]
    have hsv : validEntry f s := ⟨hbs, by rw [hu]; exact fun h => Option.noConfusion h⟩
    cases hft : firstToTime t l2 with
    | none =>
      simp only [Option.isSome_none, Bool.false_eq_true, false_iff]
      rintro ⟨l1', s', l2', fu', hsplit', hbs', hu', hl1', _, hto⟩
      have hv' : validEntry f s' :=
        ⟨hbs', by rw [hu']; exact fun h => Option.noConfusion h⟩
      obtain ⟨rfl, rfl, rfl⟩ := first_split_unique hsplit' hl1 hsv hl1' hv'
      have := (firstToTime_isSome_iff t l2).mpr hto
      rw [hft] at this
      exact Bool.noConfusion this
    | some tu =>
      by_cases he : e ≤ fu
      · simp only [if_pos he, Option.isSome_some, true_iff]
        refine ⟨l1, s, l2, fu, rfl, hbs, hu, hl1, he, ?_⟩
        exact (firstToTime_isSome_iff t l2).mp (by rw [hft]; rfl)
      · simp only [if_neg he, Option.isSome_none, Bool.false_eq_true, false_iff]
        rintro ⟨l1', s', l2', fu', hsplit', hbs', hu', hl1', he', hto⟩
        have hv' : validEntry f s' :=
          ⟨hbs', by rw [hu']; exact fun h => Option.noConfusion h⟩
        obtain ⟨rfl, rfl, rfl⟩ := first_split_unique hsplit' hl1 hsv hl1' hv'
        rw [hu] at hu'
        obtain rfl := Option.some.inj hu'
        exact he he'

theorem bvaLoop_cons (f t : String) (e : Int) (c : String × Vehicle)
    (rest : List (String × Vehicle)) (best : Option RideBest) :
    bvaLoop f t e (c :: rest) best = bvaLoop f t e rest (bvaStep f t e best c) := rfl

theorem bvaStep_of_none (f t : String) (e : Int) (best : Option RideBest)
    (c : String × Vehicle) (hfeas : vehFeasible c.2 f t e = none) :
    bvaStep f t e best c = best := by
  unfold bvaStep
  rw [hfeas]

theorem bvaStep_of_some_none (f t : String) (e : Int) (c : String × Vehicle)
    (fu tu : Int) (hfeas : vehFeasible c.2 f t e = some (fu, tu)) :
    bvaStep f t e none c = some (mkBest c.1 c.2 f t fu tu) := by
  unfold bvaStep
  rw [hfeas]

theorem bvaStep_of_some_lt (f t : String) (e : Int) (c : String × Vehicle)
    (fu tu : Int) (b0 : RideBest) (hfeas : vehFeasible c.2 f t e = some (fu, tu))
    (hlt : tu < b0.arrivalTime) :
    bvaStep f t e (some b0) c = some (mkBest c.1 c.2 f t fu tu) := by
  unfold bvaStep
  rw [hfeas]
  simp [hlt]

theorem bvaStep_of_some_ge (f t : String) (e : Int) (c : String × Vehicle)
    (fu tu : Int) (b0 : RideBest) (hfeas : vehFeasible c.2 f t e = some (fu, tu))
    (hge : ¬ tu < b0.arrivalTime) :
    bvaStep f t e (some b0) c = some b0 := by
  unfold bvaStep
  rw [hfeas]
  simp [hge]

theorem bvaLoop_none_iff (f t : String) (e : Int) :
    ∀ (cs : List (String × Vehicle)) (best : Option RideBest),
      bvaLoop f t e cs best = none ↔
        (best = none ∧ ∀ c ∈ cs, vehFeasible c.2 f t e = none) := by
  intro cs
  induction cs with
  | nil => intro best; simp [bvaLoop]
  | cons c rest ih =>
    intro best
    rw [bvaLoop_cons, ih]
    constructor
    · rintro ⟨hstep, hrest⟩
      cases hfeas : vehFeasible c.2 f t e with
      | none =>
        rw [bvaStep_of_none f t e best c hfeas] at hstep
        refine ⟨hstep, ?_⟩
        intro c' hc'
        rcases List.mem_cons.mp hc' with h | h
        · subst h; exact hfeas
        · exact hrest c' h
      | some p =>
        obtain ⟨fu, tu⟩ := p
        exfalso
        cases best with
        | none =>
          rw [bvaStep_of_some_none f t e c fu tu hfeas] at hstep
          exact Option.noConfusion hstep
        | some b0 =>
          by_cases hlt : tu < b0.arrivalTime
          · rw [bvaStep_of_some_lt f t e c fu tu b0 hfeas hlt] at hstep
            exact Option.noConfusion hstep
          · rw [bvaStep_of_some_ge f t e c fu tu b0 hfeas hlt] at hstep
            exact Option.noConfusion hstep
    · rintro ⟨hbest, hall⟩
      subst hbest
      refine ⟨?_, fun c' hc' => hall c' (List.mem_cons_of_mem _ hc')⟩
      rw [bvaStep_of_none f t e none c (hall c (List.mem_cons_self ..))]

end ChainsValidate


namespace ChainsValidate

/-- The loop of `_best_vehicle_arrival` returns the first feasible
candidate attaining the minimum arrival time: the result's arrival is a
lower bound for all feasible candidates, and it comes either from the
incoming best or from a candidate that strictly beats both the incoming
best and every feasible candidate before it. -/
theorem bvaLoop_some_spec (f t : String) (e : Int) :
    ∀ (cs : List (String × Vehicle)) (best : Option RideBest) (b : RideBest),
      bvaLoop f t e cs best = some b →
      (∀ c ∈ cs, ∀ fu tu, vehFeasible c.2 f t e = some (fu, tu) →
        b.arrivalTime ≤ tu) ∧
      (best = some b ∨
        ∃ l1 c l2 fu tu, cs = l1 ++ c :: l2 ∧
          vehFeasible c.2 f t e = some (fu, tu) ∧
          b = mkBest c.1 c.2 f t fu tu ∧
          (∀ b0, best = some b0 → tu < b0.arrivalTime) ∧
          (∀ c' ∈ l1, ∀ fu' tu', vehFeasible c'.2 f t e = some (fu', tu') →
            tu < tu')) := by
  intro cs
  induction cs with
  | nil =>
    intro best b h
    exact ⟨by simp, Or.inl h⟩
  | cons c rest ih =>
    intro best b h
    rw [bvaLoop_cons] at h
    cases hfeas : vehFeasible c.2 f t e with
    | none =>
      rw [bvaStep_of_none f t e best c hfeas] at h
      obtain ⟨hmin, hsel⟩ := ih best b h
      refine ⟨?_, ?_⟩
      · intro c' hc' fu' tu' hf'
        rcases List.mem_cons.mp hc' with h2 | h2
        · subst h2; rw [hfeas] at hf'; exact Option.noConfusion hf'
        · exact hmin c' h2 fu' tu' hf'
      · rcases hsel with h2 | ⟨l1, c2, l2, fu2, tu2, hsplit, hf2, hb, hb0, hl1⟩
        · exact Or.inl h2
        · refine Or.inr ⟨c :: l1, c2, l2, fu2, tu2, by rw [hsplit, List.cons_append],
            hf2, hb, hb0, ?_⟩
          intro c' hc' fu' tu' hf'
          rcases List.mem_cons.mp hc' with h3 | h3
          · subst h3; rw [hfeas] at hf'; exact Option.noConfusion hf'
          · exact hl1 c' h3 fu' tu' hf'
    | some p =>
      obtain ⟨fu, tu⟩ := p
      -- the arrival of any other feasible sighting of `c` equals `tu`
      have hcdet : ∀ fu' tu', vehFeasible c.2 f t e = some (fu', tu') → tu' = tu := by
        intro fu' tu' hf'
        have := Option.some.inj (hfeas.symm.trans hf')
        injection this with _ h2
        exact h2.symm
      -- common reasoning once the step installed `mkBest c … tu` as best
      have hnew : ∀ (h2 : bvaLoop f t e rest (some (mkBest c.1 c.2 f t fu tu)) = some b)
          (hbeat : ∀ b0, best = some b0 → tu < b0.arrivalTime),
          (∀ c' ∈ c :: rest, ∀ fu' tu', vehFeasible c'.2 f t e = some (fu', tu') →
            b.arrivalTime ≤ tu') ∧
          (best = some b ∨
            ∃ l1 c2 l2 fu2 tu2, (c :: rest : List (String × Vehicle)) = l1 ++ c2 :: l2 ∧
              vehFeasible c2.2 f t e = some (fu2, tu2) ∧
              b = mkBest c2.1 c2.2 f t fu2 tu2 ∧
              (∀ b0, best = some b0 → tu2 < b0.arrivalTime) ∧
              (∀ c' ∈ l1, ∀ fu' tu', vehFeasible c'.2 f t e = some (fu', tu') →
                tu2 < tu')) := by
        intro h2 hbeat
        obtain ⟨hmin, hsel⟩ := ih (some (mkBest c.1 c.2 f t fu tu)) b h2
        have harr : b.arrivalTime ≤ tu := by
          rcases hsel with h3 | ⟨l1, c2, l2, fu2, tu2, hsplit, hf2, hb, hb0, hl1⟩
          · obtain rfl := Option.some.inj h3
            exact le_of_eq rfl
          · subst hb
            exact le_of_lt (hb0 (mkBest c.1 c.2 f t fu tu) rfl)
        refine ⟨?_, ?_⟩
        · intro c' hc' fu' tu' hf'
          rcases List.mem_cons.mp hc' with h3 | h3
          · subst h3
            rw [hcdet fu' tu' hf']
            exact harr
          · exact hmin c' h3 fu' tu' hf'
        · rcases hsel with h3 | ⟨l1, c2, l2, fu2, tu2, hsplit, hf2, hb, hb0, hl1⟩
          · refine Or.inr ⟨[], c, rest, fu, tu, by simp, hfeas,
              (Option.some.inj h3).symm, hbeat, by simp⟩
          · have htu2 : tu2 < tu := hb0 (mkBest c.1 c.2 f t fu tu) rfl
            refine Or.inr ⟨c :: l1, c2, l2, fu2, tu2,
              by rw [hsplit, List.cons_append], hf2, hb,
              fun b0 hb0' => lt_trans htu2 (hbeat b0 hb0'), ?_⟩
            intro c' hc' fu' tu' hf'
            rcases List.mem_cons.mp hc' with h4 | h4
            · subst h4
              rw [hcdet fu' tu' hf']
              exact htu2
            · exact hl1 c' h4 fu' tu' hf'
      cases best with
      | none =>
        rw [bvaStep_of_some_none f t e c fu tu hfeas] at h
        exact hnew h (fun b0 hx => Option.noConfusion hx)
      | some b0 =>
        by_cases hlt : tu < b0.arrivalTime
        · rw [bvaStep_of_some_lt f t e c fu tu b0 hfeas hlt] at h
          exact hnew h (fun b0' hx => by obtain rfl := Option.some.inj hx; exact hlt)
        · rw [bvaStep_of_some_ge f t e c fu tu b0 hfeas hlt] at h
          obtain ⟨hmin, hsel⟩ := ih (some b0) b h
          have hb0tu : b0.arrivalTime ≤ tu := not_lt.mp hlt
          have harrB : b.arrivalTime ≤ b0.arrivalTime := by
            rcases hsel with h3 | ⟨l1, c2, l2, fu2, tu2, hsplit, hf2, hb, hb0c, hl1⟩
            · obtain rfl := Option.some.inj h3
              exact le_of_eq rfl
            · subst hb
              exact le_of_lt (hb0c b0 rfl)
          refine ⟨?_, ?_⟩
          · intro c' hc' fu' tu' hf'
            rcases List.mem_cons.mp hc' with h3 | h3
            · subst h3
              rw [hcdet fu' tu' hf']
              exact le_trans harrB hb0tu
            · exact hmin c' h3 fu' tu' hf'
          · rcases hsel with h3 | ⟨l1, c2, l2, fu2, tu2, hsplit, hf2, hb, hb0c, hl1⟩
            · exact Or.inl h3
            · have htu2 : tu2 < b0.arrivalTime := hb0c b0 rfl
              refine Or.inr ⟨c :: l1, c2, l2, fu2, tu2,
                by rw [hsplit, List.cons_append], hf2, hb,
                fun b0' hx => by obtain rfl := Option.some.inj hx; exact htu2, ?_⟩
              intro c' hc' fu' tu' hf'
              rcases List.mem_cons.mp hc' with h4 | h4
              · subst h4
                rw [hcdet fu' tu' hf']
                exact lt_of_lt_of_le htu2 hb0tu
              · exact hl1 c' h4 fu' tu' hf'

end ChainsValidate


namespace ChainsValidate

/-- Counterexample vehicle for C2: it visits the from-stop `SA` twice
(at t=10 and t=100) and then the to-stop `SB` (t=200). -/
def exVehC2 : Vehicle where
  id := "veh0"
  line := "L1"
  depart := 0
  stops := [⟨some "SA", some 10⟩, ⟨some "SA", some 100⟩, ⟨some "SB", some 200⟩]

/-- **C2 counterexample**: with the cursor at t=50, the claim's
feasibility condition holds for `exVehC2` — the stop list contains the
from stop at *some* boarding time 100 ≥ 50 and subsequently the to stop
— yet `_best_vehicle_arrival` selects no vehicle at all, because the
code fixes the boarding time at the *first* occurrence of the from stop
(t=10 < 50) and rejects the vehicle.  This falsifies the claim's
"feasible candidate iff" characterization. -/
theorem C2_counterexample :
    claimFeasible exVehC2 "SA" "SB" 50 ∧
    best_vehicle_arrival [("routes.xml", [exVehC2])] ["L1"] "SA" "SB" 50 = none := by
  constructor
  · exact ⟨[⟨some "SA", some 10⟩], ⟨some "SA", some 100⟩, [⟨some "SB", some 200⟩], 100,
      rfl, rfl, rfl, by norm_num,
      ⟨some "SB", some 200⟩, by simp, rfl, by simp⟩
  · decide

/-- **C2 amended** (Chain Validator earliest-arrival search): a vehicle
of an acceptable line is a feasible candidate iff the *first* usable
stop entry naming the from stop has boarding time at or after the time
cursor and a usable entry naming the to stop occurs at a later
position; among all feasible candidates across all routes files (in
input order), the validator selects the one with the minimum arrival
time, ties broken by input order (the first encountered wins), and
returns nothing iff no candidate is feasible. -/
theorem C2_amended_earliest_arrival :
    (∀ (v : Vehicle) (f t : String) (e : Int),
      (vehFeasible v f t e).isSome ↔ firstFromFeasible v f t e) ∧
    (∀ (files : List (String × List Vehicle)) (targets : List String)
        (f t : String) (e : Int),
      (best_vehicle_arrival files targets f t e = none ↔
        ∀ c ∈ candidatesOf files targets, vehFeasible c.2 f t e = none) ∧
      (∀ b, best_vehicle_arrival files targets f t e = some b →
        ∃ l1 c l2 fu tu, candidatesOf files targets = l1 ++ c :: l2 ∧
          vehFeasible c.2 f t e = some (fu, tu) ∧
          b = mkBest c.1 c.2 f t fu tu ∧
          (∀ c' ∈ candidatesOf files targets, ∀ fu' tu',
            vehFeasible c'.2 f t e = some (fu', tu') → tu ≤ tu') ∧
          (∀ c' ∈ l1, ∀ fu' tu',
            vehFeasible c'.2 f t e = some (fu', tu') → tu < tu'))) := by
  refine ⟨vehFeasible_isSome_iff, ?_⟩
  intro files targets f t e
  constructor
  · unfold best_vehicle_arrival
    rw [bvaLoop_none_iff]
    simp
  · intro b hb
    obtain ⟨hmin, hsel⟩ :=
      bvaLoop_some_spec f t e (candidatesOf files targets) none b hb
    rcases hsel with h | ⟨l1, c, l2, fu, tu, hsplit, hf, hbb, _, hl1⟩
    · exact Option.noConfusion h
    · refine ⟨l1, c, l2, fu, tu, hsplit, hf, hbb, ?_, hl1⟩
      intro c' hc' fu' tu' hf'
      have hba : b.arrivalTime = tu := by rw [hbb]; rfl
      exact hba ▸ hmin c' hc' fu' tu' hf'

/-- Witness for `C2_amended_earliest_arrival`: the characterization
instantiated at the concrete counterexample vehicle. -/
theorem C2_amended_earliest_arrival_witness :
    ((vehFeasible exVehC2 "SA" "SB" 5).isSome ↔
      firstFromFeasible exVehC2 "SA" "SB" 5) ∧
    (best_vehicle_arrival [("routes.xml", [exVehC2])] ["L1"] "SA" "SB" 5 = none ↔
      ∀ c ∈ candidatesOf [("routes.xml", [exVehC2])] ["L1"],
        vehFeasible c.2 "SA" "SB" 5 = none) :=
  ⟨C2_amended_earliest_arrival.1 exVehC2 "SA" "SB" 5,
    (C2_amended_earliest_arrival.2 [("routes.xml", [exVehC2])] ["L1"] "SA" "SB" 5).1⟩

end ChainsValidate


namespace ChainsValidate

/-- Character-level `str.startswith` (structural recursion so that
concrete witness evaluation is possible). -/
def startsWithL : List Char → List Char → Bool
  | _, [] => true
  | [], _ :: _ => false
  | a :: as, p :: ps => a = p && startsWithL as ps

/-- The for/else over `strip_prefixes` inside `_map_lines`: strip the
first matching label prefix, else keep the label. -/
def stripFirst (stripPrefs : List String) (raw : String) : String :=
  match stripPrefs.find? (fun p => startsWithL raw.data p.data) with
  | some p => String.mk (raw.data.drop p.data.length)
  | none => raw

/-- Order-preserving de-duplication (the `seen` set of `_map_lines`). -/
def dedupKeepOrder (seen : List String) : List String → List String
  | [] => []
  | x :: xs =>
    if seen.contains x then dedupKeepOrder seen xs
    else x :: dedupKeepOrder (x :: seen) xs

/-- `_map_lines`: apply the explicit line map first, else strip a known
prefix, then drop duplicates keeping first occurrences. -/
def mapLines (lineMap : List (String × String)) (stripPrefs : List String)
    (lines : List String) : List String :=
  dedupKeepOrder [] (lines.map (fun raw =>
    match lineMap.lookup raw with
    | some v => v
    | none => stripFirst stripPrefs raw))

/-- A leg of an explicit chain plan as the validator reads it.
`type` is the raw JSON value (an absent type behaves like any string
other than "walk"/"ride"); `duration_s` models
`int(leg.get("duration_s", 0) or 0)`; `lines` models
`leg.get("lines", [])`. -/
structure Leg where
  type : String
  fromRef : Ref
  toRef : Ref
  duration_s : Int := 0
  lines : List String := []
deriving DecidableEq

structure Plan where
  personId : String
  depart : Int
  legs : List Leg
deriving DecidableEq

/-- Inputs of `_validate_one_plan` other than the plan itself. -/
structure ValContext where
  knownStops : Option (List String)
  routesFiles : List (String × List Vehicle)
  lineMap : List (String × String)
  stripPrefs : List String
deriving Inhabited

/-- State of the structural pass (source lines 183-212).  Error
messages are abbreviated but recorded at the same points as in the
source. -/
structure StructState where
  errors : List String
  prevTo : Option Ref
  refStops : List String
  refLines : List String
deriving DecidableEq

/-- Insertion into an insertion-ordered set (the source uses Python
sets and later sorts them; only membership and emptiness are
observable in the claims). -/
def addSet (l : List String) (x : String) : List String :=
  if l.contains x then l else l ++ [x]

def addStopsOf (st : List String) (r : Ref) : List String :=
  match r with
  | .busStop v => addSet st v
  | .edge _ => st

def structStep (ctx : ValContext) (idx : Nat) (st : StructState) (leg : Leg) :
    StructState :=
  if leg.type ≠ "walk" ∧ leg.type ≠ "ride" then
    { st with errors := st.errors ++ ["Leg #" ++ toString idx ++ " unknown type"] }
  else
    { errors :=
        match st.prevTo with
        | some p =>
          if leg.fromRef ≠ p then
            st.errors ++ ["Leg #" ++ toString idx ++ " starts at wrong anchor"]
          else st.errors
        | none => st.errors
      prevTo := some leg.toRef
      refStops := addStopsOf (addStopsOf st.refStops leg.fromRef) leg.toRef
      refLines :=
        if leg.type = "ride" then
          (mapLines ctx.lineMap ctx.stripPrefs leg.lines).foldl addSet st.refLines
        else st.refLines }

def structuralPass (ctx : ValContext) : List Leg → Nat → StructState → StructState
  | [], _, st => st
  | leg :: rest, idx, st => structuralPass ctx rest (idx + 1) (structStep ctx idx st leg)

/-- Unknown-stop errors (source lines 214-217; the source iterates the
referenced stops in sorted order, which affects only message order). -/
def stopErrorsOf (ctx : ValContext) (refStops : List String) : List String :=
  match ctx.knownStops with
  | none => []
  | some known => refStops.filterMap (fun s =>
      if known.contains s then none else some ("Unknown busStop id: " ++ s))

structure RideLegReport where
  legIndex : Nat
  earliestTimeAtFrom : Int
  best : RideBest
deriving DecidableEq

/-- State of the feasibility pass (source lines 219-258). -/
structure FeasState where
  cursor : Int
  rideErrors : List String
  rides : List RideLegReport
deriving DecidableEq

def feasStep (ctx : ValContext) (idx : Nat) (st : FeasState) (leg : Leg) :
    FeasState :=
  if leg.type = "walk" then
    { st with cursor := st.cursor + max 0 leg.duration_s }
  else if leg.type ≠ "ride" then st
  else
    match leg.fromRef, leg.toRef with
    | .busStop f, .busStop t =>
      if mapLines ctx.lineMap ctx.stripPrefs leg.lines = [] then
        { st with rideErrors :=
            st.rideErrors ++ ["Leg #" ++ toString idx ++ " ride has empty lines"] }
      else if ctx.routesFiles = [] then
        { st with rideErrors :=
            st.rideErrors ++ ["Leg #" ++ toString idx ++ " requires routes files"] }
      else
        match best_vehicle_arrival ctx.routesFiles
          (mapLines ctx.lineMap ctx.stripPrefs leg.lines) f t st.cursor with
        | none =>
          { st with rideErrors :=
              st.rideErrors ++ ["Leg #" ++ toString idx ++ " no feasible PT vehicle"] }
        | some b =>
          { cursor := b.arrivalTime
            rideErrors := st.rideErrors
            rides := st.rides ++ [⟨idx, st.cursor, b⟩] }
    | _, _ =>
      { st with rideErrors :=
          st.rideErrors ++ ["Leg #" ++ toString idx ++ " ride must be busStop to busStop"] }

def feasPass (ctx : ValContext) : List Leg → Nat → FeasState → FeasState
  | [], _, st => st
  | leg :: rest, idx, st => feasPass ctx rest (idx + 1) (feasStep ctx idx st leg)

/-- The validation report.  The source's invalid-shape early return
emits a dict without the `stopErrors`/`rideErrors`/`rides`/
`endTimeEstimate`/`referencedLinesMapped` keys; absent keys are
modelled as `none`/`[]`. -/
structure PlanReport where
  personId : Option String
  depart : Int
  ok : Bool
  errors : List String
  stopErrors : List String
  rideErrors : List String
  rides : List RideLegReport
  endTimeEstimate : Option Int
  referencedLinesMapped : List String
deriving DecidableEq

/-- `_validate_one_plan` (source lines 169-271). -/
def validate_one_plan (ctx : ValContext) (p : Plan) : PlanReport :=
  if p.personId = "" ∨ p.legs = [] then
    { personId := if p.personId = "" then none else some p.personId
      depart := p.depart, ok := false, errors := ["invalid plan shape"]
      stopErrors := [], rideErrors := [], rides := []
      endTimeEstimate := none, referencedLinesMapped := [] }
  else
    let st := structuralPass ctx p.legs 0 ⟨[], none, [], []⟩
    let stopErrs := stopErrorsOf ctx st.refStops
    let fs := feasPass ctx p.legs 0 ⟨p.depart, [], []⟩
    { personId := some p.personId, depart := p.depart
      ok := decide (st.errors = [] ∧ stopErrs = [] ∧ fs.rideErrors = [])
      errors := st.errors, stopErrors := stopErrs
      rideErrors := fs.rideErrors, rides := fs.rides
      endTimeEstimate := some fs.cursor
      referencedLinesMapped := st.refLines }

end ChainsValidate


namespace ChainsValidate

/-- **C6** (Chain Validator failure semantics and report completeness):
for every structurally shaped plan, (i) the report is ok iff it has zero
structural errors (leg-chain errors and unknown-stop errors) and zero
ride errors; (ii) the report always carries the final time cursor as
`endTimeEstimate`, whether or not every leg was feasible; (iii) a ride
leg with stop anchors, a nonempty mapped line set and no feasible
vehicle only appends an infeasibility error — the cursor and ride
reports are unchanged; and (iv) the pass always continues with the
remaining legs. -/
theorem C6_failure_semantics (ctx : ValContext) (p : Plan)
    (h1 : p.personId ≠ "") (h2 : p.legs ≠ []) :
    ((validate_one_plan ctx p).ok = true ↔
      ((validate_one_plan ctx p).errors = [] ∧
        (validate_one_plan ctx p).stopErrors = [] ∧
        (validate_one_plan ctx p).rideErrors = [])) ∧
    (validate_one_plan ctx p).endTimeEstimate =
      some (feasPass ctx p.legs 0 ⟨p.depart, [], []⟩).cursor ∧
    (∀ (idx : Nat) (st : FeasState) (leg : Leg) (f t : String),
      leg.type = "ride" → leg.fromRef = .busStop f → leg.toRef = .busStop t →
      mapLines ctx.lineMap ctx.stripPrefs leg.lines ≠ [] →
      ctx.routesFiles ≠ [] →
      best_vehicle_arrival ctx.routesFiles
        (mapLines ctx.lineMap ctx.stripPrefs leg.lines) f t st.cursor = none →
      feasStep ctx idx st leg =
        { st with rideErrors :=
            st.rideErrors ++ ["Leg #" ++ toString idx ++ " no feasible PT vehicle"] }) ∧
    (∀ (leg : Leg) (rest : List Leg) (idx : Nat) (st : FeasState),
      feasPass ctx (leg :: rest) idx st =
        feasPass ctx rest (idx + 1) (feasStep ctx idx st leg)) := by
  have hshape : ¬ (p.personId = "" ∨ p.legs = []) := by
    rintro (h | h)
    · exact h1 h
    · exact h2 h
  refine ⟨?_, ?_, ?_, ?_⟩
  · unfold validate_one_plan
    rw [if_neg hshape]
    exact decide_eq_true_iff
  · unfold validate_one_plan
    rw [if_neg hshape]
  · intro idx st leg f t htype hfrom hto hmapped hfiles hbva
    unfold feasStep
    rw [htype, hfrom, hto]
    have hw : ¬ (("ride" : String) = "walk") := by decide
    have hr : ¬ (("ride" : String) ≠ "ride") := by decide
    simp only [if_neg hw, if_neg hr, if_neg hmapped, if_neg hfiles, hbva]
  · intro leg rest idx st
    rfl

/-- Concrete plan for the C6 witness: one walk leg, no routes files. -/
def exCtxC6 : ValContext where
  knownStops := none
  routesFiles := []
  lineMap := []
  stripPrefs := ["subway:", "bus:"]

def exPlanC6 : Plan where
  personId := "p1"
  depart := 100
  legs := [{ type := "walk", fromRef := .edge "E1", toRef := .edge "E2",
             duration_s := 30, lines := [] }]

/-- Witness for `C6_failure_semantics`: both shape hypotheses are
discharged on the concrete plan. -/
theorem C6_failure_semantics_witness :
    ((validate_one_plan exCtxC6 exPlanC6).ok = true ↔
      ((validate_one_plan exCtxC6 exPlanC6).errors = [] ∧
        (validate_one_plan exCtxC6 exPlanC6).stopErrors = [] ∧
        (validate_one_plan exCtxC6 exPlanC6).rideErrors = [])) ∧
    (validate_one_plan exCtxC6 exPlanC6).endTimeEstimate =
      some (feasPass exCtxC6 exPlanC6.legs 0 ⟨exPlanC6.depart, [], []⟩).cursor :=
  ⟨(C6_failure_semantics exCtxC6 exPlanC6 (by decide) (by decide)).1,
    (C6_failure_semantics exCtxC6 exPlanC6 (by decide) (by decide)).2.1⟩

end ChainsValidate


/-! ## Embedding of `tools/od_to_explicit_chains.py`

The Intermodal Planner: per-OD stage-oracle query, relaxation-grid
acceptance, and conversion of accepted stage sequences into explicit
leg chains. -/

namespace ODChains

open ChatCity

/-- A TraCI `Stage` as read by the converter: `type` is the optional
integer stage-type code; `line`/`destStop` model
`str(getattr(st, ..., "") or "")`; the numeric fields feed the
statistics. -/
structure Stage where
  type : Option Int
  line : String
  destStop : String
  length : ℚ := 0
  cost : ℚ := 0
  travelTime : ℚ := 0
deriving DecidableEq

/-- `is_ride` / `is_walk` stage classification (identical in
`_stages_to_plan` and `_plan_stats_from_stages`). -/
def isRideStage (st : Stage) : Bool :=
  st.type = some 3 || (st.line ≠ "" && st.destStop ≠ "")

def isWalkStage (st : Stage) : Bool :=
  st.type = some 2 || (st.line = "" && st.type ≠ none)

/-- A produced leg (same shape as the validator's input legs). -/
structure Leg where
  type : String
  fromRef : ChainsValidate.Ref
  toRef : ChainsValidate.Ref
  lines : List String := []
deriving DecidableEq

/-- The loop of `_stages_to_plan` (source lines 95-135): `cur` is the
running `current_ref` anchor. -/
def legsOfStages (toEdge : String) :
    List Stage → ChainsValidate.Ref → Except String (List Leg)
  | [], _ => .ok []
  | st :: rest, cur =>
    if isRideStage st then
      match cur with
      | .busStop b =>
        if st.destStop = "" then
          .error "ride stage has empty destStop"
        else
          match legsOfStages toEdge rest (.busStop st.destStop) with
          | .error e => .error e
          | .ok tail =>
            .ok ({ type := "ride", fromRef := .busStop b,
                   toRef := .busStop st.destStop,
                   lines := if st.line ≠ "" then [st.line] else [] } :: tail)
      | .edge _ => .error "cannot build ride leg: current anchor is not a busStop"
    else if isWalkStage st then
      if st.destStop ≠ "" then
        match legsOfStages toEdge rest (.busStop st.destStop) with
        | .error e => .error e
        | .ok tail =>
          .ok ({ type := "walk", fromRef := cur,
                 toRef := .busStop st.destStop } :: tail)
      else
        match legsOfStages toEdge rest (.edge toEdge) with
        | .error e => .error e
        | .ok tail =>
          .ok ({ type := "walk", fromRef := cur, toRef := .edge toEdge } :: tail)
    else .error "unsupported stage"

/-- The plan dict produced by `_stages_to_plan`. -/
structure ChainPlan where
  personId : String
  depart : Int
  legs : List Leg
  fromEdge : String
  toEdge : String
deriving DecidableEq

/-- `_stages_to_plan`: the initial anchor is the request's origin
edge. -/
def stages_to_plan (stages : List Stage) (personId : String) (depart : Int)
    (fromEdge toEdge : String) : Except String ChainPlan :=
  match legsOfStages toEdge stages (.edge fromEdge) with
  | .error e => .error e
  | .ok legs => .ok ⟨personId, depart, legs, fromEdge, toEdge⟩

/-- The from/to chaining invariant of a leg list. -/
def chainOk : List Leg → Prop
  | [] => True
  | [_] => True
  | a :: b :: rest => a.toRef = b.fromRef ∧ chainOk (b :: rest)

/-- Invariant of the conversion loop: a successfully produced leg list
chains, and its first leg starts at the running anchor. -/
theorem legsOfStages_invariant (toEdge : String) :
    ∀ (stages : List Stage) (cur : ChainsValidate.Ref) (legs : List Leg),
      legsOfStages toEdge stages cur = .ok legs →
      chainOk legs ∧ (∀ l ls, legs = l :: ls → l.fromRef = cur) := by
  intro stages
  induction stages with
  | nil =>
    intro cur legs h
    simp only [legsOfStages] at h
    obtain rfl : ([] : List Leg) = legs := by injection h
    exact ⟨trivial, by intro l ls h2; exact absurd h2 (by simp)⟩
  | cons st rest ih =>
    intro cur legs h
    unfold legsOfStages at h
    by_cases hr : isRideStage st = true
    · rw [if_pos hr] at h
      cases cur with
      | edge v => exact Except.noConfusion h
      | busStop b =>
        dsimp only [] at h
        by_cases hd : st.destStop = ""
        · rw [if_pos hd] at h
          exact Except.noConfusion h
        · rw [if_neg hd] at h
          cases htail : legsOfStages toEdge rest (.busStop st.destStop) with
          | error e => rw [htail] at h; exact Except.noConfusion h
          | ok tail =>
            rw [htail] at h
            obtain rfl : _ = legs := by injection h
            obtain ⟨hchain, hhead⟩ := ih (.busStop st.destStop) tail htail
            constructor
            · cases tail with
              | nil => exact trivial
              | cons t ts =>
                exact ⟨(hhead t ts rfl).symm, hchain⟩
            · intro l ls h2
              injection h2 with h3 _
              rw [← h3]
    · rw [if_neg hr] at h
      by_cases hw : isWalkStage st = true
      · rw [if_pos hw] at h
        by_cases hd : st.destStop ≠ ""
        · rw [if_pos hd] at h
          cases htail : legsOfStages toEdge rest (.busStop st.destStop) with
          | error e => rw [htail] at h; exact Except.noConfusion h
          | ok tail =>
            rw [htail] at h
            obtain rfl : _ = legs := by injection h
            obtain ⟨hchain, hhead⟩ := ih (.busStop st.destStop) tail htail
            constructor
            · cases tail with
              | nil => exact trivial
              | cons t ts =>
                exact ⟨(hhead t ts rfl).symm, hchain⟩
            · intro l ls h2
              injection h2 with h3 _
              rw [← h3]
        · rw [if_neg hd] at h
          cases htail : legsOfStages toEdge rest (.edge toEdge) with
          | error e => rw [htail] at h; exact Except.noConfusion h
          | ok tail =>
            rw [htail] at h
            obtain rfl : _ = legs := by injection h
            obtain ⟨hchain, hhead⟩ := ih (.edge toEdge) tail htail
            constructor
            · cases tail with
              | nil => exact trivial
              | cons t ts =>
                exact ⟨(hhead t ts rfl).symm, hchain⟩
            · intro l ls h2
              injection h2 with h3 _
              rw [← h3]
      · rw [if_neg hw] at h
        exact Except.noConfusion h

/-- **C4** (chain invariant by construction): every stage sequence the
converter accepts without error yields a leg chain with
`leg[i].to = leg[i+1].from` for all consecutive legs, and the first
leg's from-anchor is the request's origin edge. -/
theorem C4_chain_invariant (stages : List Stage) (personId : String)
    (depart : Int) (fromEdge toEdge : String) (plan : ChainPlan)
    (h : stages_to_plan stages personId depart fromEdge toEdge = .ok plan) :
    chainOk plan.legs ∧
    (∀ l ls, plan.legs = l :: ls → l.fromRef = .edge fromEdge) := by
  unfold stages_to_plan at h
  cases hlegs : legsOfStages toEdge stages (.edge fromEdge) with
  | error e => rw [hlegs] at h; exact Except.noConfusion h
  | ok legs =>
    rw [hlegs] at h
    obtain rfl : ChainPlan.mk personId depart legs fromEdge toEdge = plan := by
      injection h
    exact legsOfStages_invariant toEdge stages (.edge fromEdge) legs hlegs

/-- Concrete stage sequence for the C4 witness: walk to a stop, ride to
another stop, walk to the destination edge. -/
def exStagesC4 : List Stage :=
  [{ type := some 2, line := "", destStop := "ST1" },
   { type := some 3, line := "L7", destStop := "ST2" },
   { type := some 2, line := "", destStop := "" }]

/-- The plan produced from `exStagesC4`. -/
def exPlanC4 : ChainPlan where
  personId := "p9"
  depart := 300
  legs := [{ type := "walk", fromRef := .edge "EO", toRef := .busStop "ST1" },
           { type := "ride", fromRef := .busStop "ST1", toRef := .busStop "ST2",
             lines := ["L7"] },
           { type := "walk", fromRef := .busStop "ST2", toRef := .edge "ED" }]
  fromEdge := "EO"
  toEdge := "ED"

/-- Witness for `C4_chain_invariant`: the conversion hypothesis is
discharged by evaluation on the concrete stage sequence. -/
theorem C4_chain_invariant_witness :
    stages_to_plan exStagesC4 "p9" 300 "EO" "ED" = .ok exPlanC4 ∧
    (chainOk exPlanC4.legs ∧
      (∀ l ls, exPlanC4.legs = l :: ls → l.fromRef = .edge "EO")) :=
  ⟨rfl, C4_chain_invariant exStagesC4 "p9" 300 "EO" "ED" exPlanC4 rfl⟩

end ODChains


namespace ODChains

/-- The plan statistics computed by `_plan_stats_from_stages`. -/
structure PlanStats where
  rideCount : Nat
  transferCount : Int
  accessWalkLength : Option ℚ
  egressWalkLength : Option ℚ
  totalCost : ℚ
  totalTravelTime : ℚ
deriving DecidableEq

/-- `_plan_stats_from_stages` (source lines 141-173): ride count,
transfers = max(0, rides-1), access walk length (first stage, when a
walk ending at a stop), egress walk length (last stage, when a walk not
ending at a stop), aggregate cost and travel time. -/
def plan_stats_from_stages (stages : List Stage) : PlanStats :=
  let rides := stages.countP isRideStage
  { rideCount := rides
    transferCount := max 0 ((rides : Int) - 1)
    accessWalkLength :=
      match stages.head? with
      | some st0 =>
        if isWalkStage st0 && st0.destStop ≠ "" then some st0.length else none
      | none => none
    egressWalkLength :=
      match stages.getLast? with
      | some stL =>
        if isWalkStage stL && stL.destStop = "" then some stL.length else none
      | none => none
    totalCost := (stages.map Stage.cost).sum
    totalTravelTime := (stages.map Stage.travelTime).sum }

/-- `_meets_constraints` (source lines 176-190). -/
def meets_constraints (stats : PlanStats) (maxWalk : Option ℚ)
    (maxTransfers : Option Int) : Bool :=
  if (match maxTransfers with
      | some mt => decide (stats.transferCount > mt)
      | none => false) = true then false
  else if (match maxWalk, stats.accessWalkLength with
      | some mw, some a => decide (a > mw)
      | _, _ => false) = true then false
  else if (match maxWalk, stats.egressWalkLength with
      | some mw, some e2 => decide (e2 > mw)
      | _, _ => false) = true then false
  else true

/-- `_relaxation_grid`: transfers-major cartesian product, preserving
the priority order of both input sequences. -/
def relaxation_grid (walkLimits : List ℚ) (maxTransfersSeq : List Int) :
    List (ℚ × Int) :=
  maxTransfersSeq.flatMap (fun t => walkLimits.map (fun w => (w, t)))

/-- The acceptance loop of `main` (source lines 411-415): take the
first grid entry whose constraints the statistics satisfy. -/
def acceptFirst (stats : PlanStats) : List (ℚ × Int) → Option (ℚ × Int)
  | [] => none
  | (w, t) :: rest =>
    if meets_constraints stats (some w) (some t) then some (w, t)
    else acceptFirst stats rest

/-- Per-OD outcome recorded by `main` (source lines 409-441): an
accepted plan with the accepted pair, infeasibility with the statistics
attached, or a conversion error. -/
inductive ODStatus
  | ok (acceptedWalkLimit : ℚ) (acceptedMaxTransfers : Int)
      (plan : ChainPlan) (stats : PlanStats)
  | noSolutionUnderConstraints (stats : PlanStats)
  | error (msg : String)

def process_od (grid : List (ℚ × Int)) (stages : List Stage) (personId : String)
    (depart : Int) (fromEdge toEdge : String) : ODStatus :=
  let stats := plan_stats_from_stages stages
  match acceptFirst stats grid with
  | none => .noSolutionUnderConstraints stats
  | some (w, t) =>
    match stages_to_plan stages personId depart fromEdge toEdge with
    | .ok plan => .ok w t plan stats
    | .error e => .error e

/-- A grid pair is satisfied, exactly as the claim words it: the
transfer count is at most the transfer bound and each of the access and
egress walk lengths that is present is at most the walk bound; an
absent bound or absent walk length constrains nothing. -/
def claimSatisfies (stats : PlanStats) (maxWalk : Option ℚ)
    (maxTransfers : Option Int) : Prop :=
  (∀ mt, maxTransfers = some mt → stats.transferCount ≤ mt) ∧
  (∀ mw, maxWalk = some mw →
    (∀ a, stats.accessWalkLength = some a → a ≤ mw) ∧
    (∀ e2, stats.egressWalkLength = some e2 → e2 ≤ mw))

theorem meets_constraints_iff (stats : PlanStats) (w : Option ℚ)
    (t : Option Int) :
    meets_constraints stats w t = true ↔ claimSatisfies stats w t := by
  unfold meets_constraints claimSatisfies
  rcases t with _ | mt <;> rcases w with _ | mw <;>
    rcases ha : stats.accessWalkLength with _ | a <;>
    rcases he : stats.egressWalkLength with _ | e2 <;>
      simp [ha, he, not_lt]

theorem acceptFirst_spec (stats : PlanStats) :
    ∀ grid : List (ℚ × Int),
      (acceptFirst stats grid = none ↔
        ∀ p ∈ grid, ¬ claimSatisfies stats (some p.1) (some p.2)) ∧
      (∀ w t, acceptFirst stats grid = some (w, t) ↔
        ∃ l1 l2, grid = l1 ++ (w, t) :: l2 ∧
          claimSatisfies stats (some w) (some t) ∧
          ∀ p ∈ l1, ¬ claimSatisfies stats (some p.1) (some p.2)) := by
  intro grid
  induction grid with
  | nil =>
    refine ⟨by simp [acceptFirst], ?_⟩
    intro w t
    constructor
    · intro h
      exact absurd h (by simp [acceptFirst])
    · rintro ⟨l1, l2, hsplit, _, _⟩
      exact absurd hsplit (by simp)
  | cons p rest ih =>
    obtain ⟨w0, t0⟩ := p
    obtain ⟨ihnone, ihsome⟩ := ih
    by_cases hm : meets_constraints stats (some w0) (some t0) = true
    · have hsat := (meets_constraints_iff stats (some w0) (some t0)).mp hm
      have hacc : acceptFirst stats ((w0, t0) :: rest) = some (w0, t0) := by
        unfold acceptFirst
        rw [if_pos hm]
      refine ⟨?_, ?_⟩
      · rw [hacc]
        constructor
        · intro h
          exact Option.noConfusion h
        · intro h
          exact absurd hsat (h (w0, t0) (List.mem_cons_self ..))
      · intro w t
        rw [hacc]
        constructor
        · intro h
          injection h with h1
          injection h1 with hw ht
          subst hw
          subst ht
          exact ⟨[], rest, rfl, hsat, by simp⟩
        · rintro ⟨l1, l2, hsplit, hsat2, hbefore⟩
          cases l1 with
          | nil =>
            simp only [List.nil_append] at hsplit
            injection hsplit with h1 _
            rw [h1]
          | cons q l1t =>
            simp only [List.cons_append] at hsplit
            injection hsplit with h1 _
            have hq := hbefore q (List.mem_cons_self ..)
            rw [← h1] at hq
            exact absurd hsat hq
    · have hnsat : ¬ claimSatisfies stats (some w0) (some t0) := fun hc =>
        hm ((meets_constraints_iff stats (some w0) (some t0)).mpr hc)
      have hacc : acceptFirst stats ((w0, t0) :: rest) = acceptFirst stats rest := by
        conv_lhs => rw [acceptFirst]
        rw [if_neg hm]
      refine ⟨?_, ?_⟩
      · rw [hacc, ihnone]
        constructor
        · intro h q hq
          rcases List.mem_cons.mp hq with h2 | h2
          · subst h2; exact hnsat
          · exact h q h2
        · intro h q hq
          exact h q (List.mem_cons_of_mem _ hq)
      · intro w t
        rw [hacc, ihsome w t]
        constructor
        · rintro ⟨l1, l2, hsplit, hsat2, hbefore⟩
          refine ⟨(w0, t0) :: l1, l2, by rw [hsplit, List.cons_append], hsat2, ?_⟩
          intro q hq
          rcases List.mem_cons.mp hq with h2 | h2
          · subst h2; exact hnsat
          · exact hbefore q h2
        · rintro ⟨l1, l2, hsplit, hsat2, hbefore⟩
          cases l1 with
          | nil =>
            simp only [List.nil_append] at hsplit
            injection hsplit with h1 _
            injection h1 with hw ht
            subst hw
            subst ht
            exact absurd hsat2 hnsat
          | cons q l1t =>
            simp only [List.cons_append] at hsplit
            injection hsplit with h1 h2
            refine ⟨l1t, l2, h2, hsat2, ?_⟩
            intro q2 hq2
            exact hbefore q2 (List.mem_cons_of_mem _ hq2)

/-- **C3** (relaxation-grid acceptance): the constraint test is exactly
the claim's bound conditions; the planner accepts exactly the first
grid pair satisfied by the statistics; and when no grid entry is
satisfied, the outcome is Infeasible (`no_solution_under_constraints`)
carrying the computed statistics — no plan is emitted. -/
theorem C3_relaxation_grid :
    (∀ (stats : PlanStats) (w : Option ℚ) (t : Option Int),
      meets_constraints stats w t = true ↔ claimSatisfies stats w t) ∧
    (∀ (grid : List (ℚ × Int)) (stages : List Stage) (personId : String)
        (depart : Int) (fromEdge toEdge : String),
      (∀ w t plan stats,
        process_od grid stages personId depart fromEdge toEdge = .ok w t plan stats →
        ∃ l1 l2, grid = l1 ++ (w, t) :: l2 ∧
          claimSatisfies (plan_stats_from_stages stages) (some w) (some t) ∧
          ∀ p ∈ l1,
            ¬ claimSatisfies (plan_stats_from_stages stages) (some p.1) (some p.2)) ∧
      ((∀ p ∈ grid,
          ¬ claimSatisfies (plan_stats_from_stages stages) (some p.1) (some p.2)) →
        process_od grid stages personId depart fromEdge toEdge =
          .noSolutionUnderConstraints (plan_stats_from_stages stages))) := by
  refine ⟨meets_constraints_iff, ?_⟩
  intro grid stages personId depart fromEdge toEdge
  constructor
  · intro w t plan stats h
    simp only [process_od] at h
    cases hacc : acceptFirst (plan_stats_from_stages stages) grid with
    | none =>
      rw [hacc] at h
      exact ODStatus.noConfusion h
    | some p =>
      obtain ⟨w2, t2⟩ := p
      rw [hacc] at h
      cases hconv : stages_to_plan stages personId depart fromEdge toEdge with
      | error e =>
        rw [hconv] at h
        exact ODStatus.noConfusion h
      | ok plan2 =>
        rw [hconv] at h
        injection h with h1 h2 h3 h4
        subst h1
        subst h2
        exact ((acceptFirst_spec (plan_stats_from_stages stages) grid).2 w2 t2).mp hacc
  · intro hnone
    simp only [process_od]
    rw [((acceptFirst_spec (plan_stats_from_stages stages) grid).1).mpr hnone]

/-- Witness for `C3_relaxation_grid`: scenario C of the specification —
a stage sequence with 5 transfers against a grid whose largest transfer
bound is 4 is infeasible, with transferCount = 5 in the attached
statistics. -/
def exStagesC3 : List Stage :=
  List.replicate 6 { type := some 3, line := "LX", destStop := "SX" }

theorem C3_relaxation_grid_witness :
    (meets_constraints (plan_stats_from_stages exStagesC3) (some 1000) (some 4) = true ↔
      claimSatisfies (plan_stats_from_stages exStagesC3) (some 1000) (some 4)) ∧
    ((∀ p ∈ relaxation_grid [1000, 2000] [2, 3, 4],
        ¬ claimSatisfies (plan_stats_from_stages exStagesC3) (some p.1) (some p.2)) →
      process_od (relaxation_grid [1000, 2000] [2, 3, 4]) exStagesC3 "p0" 0 "EA" "EB" =
        .noSolutionUnderConstraints (plan_stats_from_stages exStagesC3)) ∧
    (∀ p ∈ relaxation_grid [1000, 2000] [2, 3, 4],
      ¬ claimSatisfies (plan_stats_from_stages exStagesC3) (some p.1) (some p.2)) ∧
    (plan_stats_from_stages exStagesC3).transferCount = 5 :=
  ⟨C3_relaxation_grid.1 (plan_stats_from_stages exStagesC3) (some 1000) (some 4),
    (C3_relaxation_grid.2 (relaxation_grid [1000, 2000] [2, 3, 4]) exStagesC3
      "p0" 0 "EA" "EB").2,
    by
      intro p hp hcs
      have hm := (meets_constraints_iff (plan_stats_from_stages exStagesC3)
        (some p.1) (some p.2)).mpr hcs
      have hall : (relaxation_grid [1000, 2000] [2, 3, 4]).all
          (fun p => !(meets_constraints (plan_stats_from_stages exStagesC3)
            (some p.1) (some p.2))) = true := by decide
      have hfalse := List.all_eq_true.mp hall p hp
      rw [hm] at hfalse
      exact Bool.noConfusion hfalse,
    by decide⟩

end ODChains


/-! ## Embedding of `convert_timetable_to_sumo.py` (service-group selection)

Python dicts iterated in insertion order are modelled as association
lists with distinct keys. -/

namespace Timetable

open ChatCity

/-- One service group: the trips dict, of which only the key count is
observable here. -/
structure ServiceGroup where
  trips : List String
deriving DecidableEq

/-- Character-level helpers with structural recursion, mirroring the
Python string operations used by the selection code. -/
def splitChar (sep : Char) : List Char → List (List Char)
  | [] => [[]]
  | c :: cs =>
    if c = sep then [] :: splitChar sep cs
    else
      match splitChar sep cs with
      | [] => [[c]]
      | seg :: rest => (c :: seg) :: rest

/-- `x.strip()` truthiness: the segment has a non-whitespace
character. -/
def segNonBlank (seg : List Char) : Bool :=
  seg.any (fun c => !c.isWhitespace)

/-- `_count_service_dates`: the number of non-blank `|`-separated
segments of the key (0 for an empty key). -/
def count_service_dates (serviceKey : String) : Nat :=
  if serviceKey = "" then 0
  else ((splitChar '|' serviceKey.data).filter segNonBlank).length

/-- `_normalize_service_date`: strip surrounding whitespace, then turn
every `-` into `/` (a single-character `str.replace`). -/
def normalize_service_date (s : String) : String :=
  String.mk (((s.data.dropWhile Char.isWhitespace).reverse.dropWhile
    Char.isWhitespace).reverse.map (fun c => if c = '-' then '/' else c))

/-- Substring containment (`needle in haystack`), via char lists. -/
def containsSub (hay needle : String) : Bool :=
  decide (List.IsInfix needle.data hay.data)

/-- The date-matching scan: first group whose key contains the
normalized date (`if normalized and normalized in str(k)`). -/
def findDateMatch (normalized : String) :
    List (String × ServiceGroup) → Option (String × ServiceGroup)
  | [] => none
  | (k, g) :: rest =>
    if normalized ≠ "" ∧ containsSub k normalized then some (k, g)
    else findDateMatch normalized rest

/-- Python truthiness of an optional string argument (`if service_key:`
treats both `None` and `""` as absent). -/
def truthy : Option String → Option String
  | some "" => none
  | x => x

/-- `_select_single_service_group` (source lines 45-85).  A raised
`ValueError` is `Except.error`.  Policy `first` indexes `keys[0]`,
which cannot fail because the empty mapping was already returned. -/
def select_single_service_group (services : List (String × ServiceGroup))
    (serviceKey serviceDate : Option String) (servicePolicy : String) :
    Except String (Option String × List (String × ServiceGroup)) :=
  if services.isEmpty then .ok (none, [])
  else
    match truthy serviceKey with
    | some k =>
      match services.lookup k with
      | some g => .ok (some k, [(k, g)])
      | none => .error ("service key not found: " ++ k)
    | none =>
      let dateHit := match truthy serviceDate with
        | some d => findDateMatch (normalize_service_date d) services
        | none => none
      match dateHit with
      | some (k, g) => .ok (some k, [(k, g)])
      | none =>
        if servicePolicy = "all" then .ok (none, services)
        else if servicePolicy = "first" then
          match services with
          | (k, g) :: _ => .ok (some k, [(k, g)])
          | [] => .error "IndexError"  -- unreachable: services is nonempty
        else if servicePolicy = "largest" then
          match services with
          | x :: xs =>
            let best := firstMaxBy (fun p => count_service_dates p.1) x xs
            .ok (some best.1, [best])
          | [] => .error "IndexError"  -- unreachable
        else if servicePolicy = "most_trips" then
          match services with
          | x :: xs =>
            let best := firstMaxBy (fun p => p.2.trips.length) x xs
            .ok (some best.1, [best])
          | [] => .error "IndexError"  -- unreachable
        else .error ("unknown service policy: " ++ servicePolicy)

end Timetable


namespace Timetable

/-- The date-match result used between the key branch and the policy
branch. -/
def dateHitOf (serviceDate : Option String)
    (services : List (String × ServiceGroup)) :
    Option (String × ServiceGroup) :=
  match truthy serviceDate with
  | some d => findDateMatch (normalize_service_date d) services
  | none => none

theorem findDateMatch_spec (n : String) :
    ∀ (l : List (String × ServiceGroup)) (k : String) (g : ServiceGroup),
      findDateMatch n l = some (k, g) →
      n ≠ "" ∧ containsSub k n = true ∧
      ∃ l1 l2, l = l1 ++ (k, g) :: l2 ∧
        ∀ p ∈ l1, ¬ (n ≠ "" ∧ containsSub p.1 n = true) := by
  intro l
  induction l with
  | nil => intro k g h; exact Option.noConfusion h
  | cons p rest ih =>
    intro k g h
    obtain ⟨k0, g0⟩ := p
    unfold findDateMatch at h
    by_cases hc : n ≠ "" ∧ containsSub k0 n = true
    · rw [if_pos hc] at h
      injection h with h1
      injection h1 with hk hg
      subst hk
      subst hg
      exact ⟨hc.1, hc.2, [], rest, rfl, by simp⟩
    · rw [if_neg hc] at h
      obtain ⟨hn, hcon, l1, l2, hsplit, hbefore⟩ := ih k g h
      refine ⟨hn, hcon, (k0, g0) :: l1, l2, by rw [hsplit, List.cons_append], ?_⟩
      intro q hq
      rcases List.mem_cons.mp hq with h2 | h2
      · subst h2; exact hc
      · exact hbefore q h2

/-- **C9 counterexample**: with an *empty* service-group mapping and an
explicitly supplied service key, the claim demands a fatal error (the
key is not present), but `_select_single_service_group` returns an
empty selection before ever checking the key. -/
theorem C9_counterexample :
    (([] : List (String × ServiceGroup)).lookup "k0" = none) ∧
    select_single_service_group [] (some "k0") none "largest" = .ok (none, []) :=
  ⟨rfl, rfl⟩

/-- **C9 amended** (service-group selection): on a non-empty group
mapping, the selection is the deterministic function of its inputs
described by the claim: an explicitly supplied key selects exactly that
group and raises when absent; otherwise a supplied date selects the
first group whose key contains the normalized date; otherwise policy
"all" selects every group, "first" exactly the first group, "largest"
exactly one group maximizing the calendar-date count of its key,
"most_trips" exactly one group maximizing its trip count, and an
unrecognized policy raises.  (On an *empty* mapping the function
returns an empty selection before any of these checks.) -/
theorem C9_service_group_selection (services : List (String × ServiceGroup))
    (serviceKey serviceDate : Option String) (policy : String)
    (hne : services ≠ []) :
    (∀ k, truthy serviceKey = some k →
      (∀ g, services.lookup k = some g →
        select_single_service_group services serviceKey serviceDate policy =
          .ok (some k, [(k, g)])) ∧
      (services.lookup k = none →
        ∃ msg, select_single_service_group services serviceKey serviceDate policy =
          .error msg)) ∧
    (truthy serviceKey = none →
      (∀ k g, dateHitOf serviceDate services = some (k, g) →
        select_single_service_group services serviceKey serviceDate policy =
          .ok (some k, [(k, g)])) ∧
      (dateHitOf serviceDate services = none →
        (policy = "all" →
          select_single_service_group services serviceKey serviceDate policy =
            .ok (none, services)) ∧
        (policy = "first" →
          ∃ k g rest, services = (k, g) :: rest ∧
            select_single_service_group services serviceKey serviceDate policy =
              .ok (some k, [(k, g)])) ∧
        (policy = "largest" →
          ∃ p, select_single_service_group services serviceKey serviceDate policy =
              .ok (some p.1, [p]) ∧ p ∈ services ∧
            ∀ q ∈ services, count_service_dates q.1 ≤ count_service_dates p.1) ∧
        (policy = "most_trips" →
          ∃ p, select_single_service_group services serviceKey serviceDate policy =
              .ok (some p.1, [p]) ∧ p ∈ services ∧
            ∀ q ∈ services, q.2.trips.length ≤ p.2.trips.length) ∧
        (policy ≠ "all" → policy ≠ "first" → policy ≠ "largest" →
          policy ≠ "most_trips" →
          ∃ msg, select_single_service_group services serviceKey serviceDate policy =
            .error msg))) ∧
    (∀ (n : String) (l : List (String × ServiceGroup)) (k : String)
        (g : ServiceGroup),
      findDateMatch n l = some (k, g) →
      n ≠ "" ∧ containsSub k n = true ∧
      ∃ l1 l2, l = l1 ++ (k, g) :: l2 ∧
        ∀ p ∈ l1, ¬ (n ≠ "" ∧ containsSub p.1 n = true)) := by
  have hemp : services.isEmpty = false := by
    cases services with
    | nil => exact absurd rfl hne
    | cons a l => rfl
  refine ⟨?_, ?_, findDateMatch_spec⟩
  · intro k htk
    constructor
    · intro g hlk
      simp only [select_single_service_group, hemp, htk, hlk]
      rfl
    · intro hlk
      refine ⟨"service key not found: " ++ k, ?_⟩
      simp only [select_single_service_group, hemp, htk, hlk]
      rfl
  · intro htk
    constructor
    · intro k g hdate
      have hdate2 : (match truthy serviceDate with
          | some d => findDateMatch (normalize_service_date d) services
          | none => none) = some (k, g) := hdate
      simp only [select_single_service_group, hemp, htk, hdate2]
      rfl
    · intro hdate
      have hdate2 : (match truthy serviceDate with
          | some d => findDateMatch (normalize_service_date d) services
          | none => none) = (none : Option (String × ServiceGroup)) := hdate
      refine ⟨?_, ?_, ?_, ?_, ?_⟩
      · intro hp
        simp only [select_single_service_group, hemp, htk, hdate2, hp]
        rfl
      · intro hp
        cases services with
        | nil => exact absurd rfl hne
        | cons x xs =>
          obtain ⟨k0, g0⟩ := x
          refine ⟨k0, g0, xs, rfl, ?_⟩
          simp only [select_single_service_group, hemp, htk, hdate2, hp]
          simp
      · intro hp
        cases services with
        | nil => exact absurd rfl hne
        | cons x xs =>
          obtain ⟨hmem, hmax⟩ := firstMaxBy_spec (fun p => count_service_dates p.1) x xs
          refine ⟨firstMaxBy (fun p => count_service_dates p.1) x xs, ?_, hmem, hmax⟩
          simp only [select_single_service_group, hemp, htk, hdate2, hp]
          simp
      · intro hp
        cases services with
        | nil => exact absurd rfl hne
        | cons x xs =>
          obtain ⟨hmem, hmax⟩ := firstMaxBy_spec (fun p => p.2.trips.length) x xs
          refine ⟨firstMaxBy (fun p => p.2.trips.length) x xs, ?_, hmem, hmax⟩
          simp only [select_single_service_group, hemp, htk, hdate2, hp]
          simp
      · intro h1 h2 h3 h4
        refine ⟨"unknown service policy: " ++ policy, ?_⟩
        simp only [select_single_service_group, hemp, htk, hdate2,
          Bool.false_eq_true, if_false]
        rw [if_neg h1, if_neg h2, if_neg h3, if_neg h4]

/-- Concrete groups for the C9 witness. -/
def exServices : List (String × ServiceGroup) :=
  [("2024/01/01|2024/01/02", ⟨["t1"]⟩),
   ("2024/02/01", ⟨["t2", "t3", "t4"]⟩)]

/-- Witness for `C9_service_group_selection`: the non-emptiness
hypothesis is discharged on concrete groups; with no key, no date and
policy "all" the selection is every group. -/
theorem C9_service_group_selection_witness :
    select_single_service_group exServices none none "all" = .ok (none, exServices) := by
  have h := C9_service_group_selection exServices none none "all" (by decide)
  exact ((h.2.1 rfl).2 rfl).1 rfl

end Timetable


/-! ## Embedding of `map_stops_to_network_optimized.py`

The Lane Matcher and the Heading Estimator.  Planar coordinates,
distances and along-lane positions are modelled as `ℚ`; angles (a
product of `atan2`/`cos`/`sin`) as `ℝ`. -/

namespace MapStops

open ChatCity

/-- `atan2 y x` via the complex argument (`Complex.arg ⟨x, y⟩` follows
the same convention: range `(-π, π]`, `atan2 0 1 = 0`). -/
noncomputable def atan2 (y x : ℝ) : ℝ := Complex.arg ⟨x, y⟩

/-- The emitted position range of a mapped stop (source lines
373-374): `start_pos = max(0.0, min(pos - 10, lane_len))` and
`end_pos = min(lane_len, max(pos + 10, start_pos + 0.1))`. -/
def start_pos (pos laneLen : ℚ) : ℚ := max 0 (min (pos - 10) laneLen)

def end_pos (pos laneLen : ℚ) : ℚ :=
  min laneLen (max (pos + 10) (start_pos pos laneLen + 1/10))

/-- **C10** (emitted stop position range is well-formed): for a matched
lane of length `L ≥ 0` and an along-lane position `0 ≤ pos ≤ L`, the
emitted assignment satisfies `0 ≤ startPos ≤ endPos ≤ L`. -/
theorem C10_position_range (pos laneLen : ℚ) (hL : 0 ≤ laneLen)
    (hp0 : 0 ≤ pos) (hpL : pos ≤ laneLen) :
    0 ≤ start_pos pos laneLen ∧
    start_pos pos laneLen ≤ end_pos pos laneLen ∧
    end_pos pos laneLen ≤ laneLen := by
  unfold end_pos
  refine ⟨le_max_left _ _, le_min ?_ ?_, min_le_left _ _⟩
  · exact max_le hL (min_le_right _ _)
  · exact le_trans (by linarith) (le_max_right _ _)

/-- Witness for `C10_position_range` at `pos = 3`, `L = 50`. -/
theorem C10_position_range_witness :
    (0 : ℚ) ≤ 50 ∧ (0 : ℚ) ≤ 3 ∧ (3 : ℚ) ≤ 50 ∧
    (0 ≤ start_pos 3 50 ∧ start_pos 3 50 ≤ end_pos 3 50 ∧ end_pos 3 50 ≤ 50) :=
  ⟨by norm_num, by norm_num, by norm_num,
    C10_position_range 3 50 (by norm_num) (by norm_num) (by norm_num)⟩

end MapStops


namespace MapStops

/-- The unit vector the estimator accumulates for one displacement:
`ang = atan2(dy, dx)` followed by `(cos ang, sin ang)`. -/
noncomputable def unitVec (dx dy : ℝ) : ℝ × ℝ :=
  (Real.cos (atan2 dy dx), Real.sin (atan2 dy dx))

/-- Inputs of `_build_preferred_headings`: the located stops (the
`stop_xy` dict built from the stop list and `net.convertLonLat2XY`,
an external conversion), the timetable stop sequences (the route and
pattern dict nesting only orders the iteration and is flattened), and
the stop-id link text prepended to raw timetable ids. -/
structure HeadingInput where
  stopXY : String → Option (ℝ × ℝ)
  patterns : List (List String)
  stopPref : String

/-- Consecutive pairs of a pattern (`for i in range(len(seq) - 1)`). -/
def pairsOf {α : Type} : List α → List (α × α)
  | a :: b :: rest => (a, b) :: pairsOf (b :: rest)
  | _ => []

/-- One accumulation step of `_build_preferred_headings` (source lines
152-166), projected onto a single stop id `sid`: pairs whose first stop
is another id leave the accumulator of `sid` untouched, as do pairs
with an unlocated endpoint or a displacement below the 1e-6 epsilon. -/
noncomputable def headingStep (inp : HeadingInput) (sid : String)
    (acc : (ℝ × ℝ) × ℕ) (pr : String × String) : (ℝ × ℝ) × ℕ :=
  if inp.stopPref ++ pr.1 = sid then
    match inp.stopXY (inp.stopPref ++ pr.1), inp.stopXY (inp.stopPref ++ pr.2) with
    | some (xa, ya), some (xb, yb) =>
      if |xb - xa| + |yb - ya| < 1/1000000 then acc
      else ((acc.1.1 + (unitVec (xb - xa) (yb - ya)).1,
             acc.1.2 + (unitVec (xb - xa) (yb - ya)).2), acc.2 + 1)
    | _, _ => acc
  else acc

/-- The accumulated vector sum and pair count at `sid` (the `accum[sid]`
and `counts[sid]` dict cells; per-key projection of the single pass, so
updates to other keys do not interleave). -/
noncomputable def headingAccum (inp : HeadingInput) (sid : String) : (ℝ × ℝ) × ℕ :=
  (inp.patterns.flatMap pairsOf).foldl (headingStep inp sid) ((0, 0), 0)

/-- The mean resultant length `math.hypot(sx, sy) / float(n)`. -/
noncomputable def headingMag (inp : HeadingInput) (sid : String) : ℝ :=
  Real.sqrt ((headingAccum inp sid).1.1 ^ 2 + (headingAccum inp sid).1.2 ^ 2) /
    (headingAccum inp sid).2

/-- The per-stop output of `_build_preferred_headings` (source lines
168-178): no heading when no pair was accumulated or the mean resultant
length is below 0.25; otherwise the direction of the summed vector. -/
noncomputable def build_preferred_headings (inp : HeadingInput) (sid : String) :
    Option ℝ :=
  if (headingAccum inp sid).2 = 0 then none
  else if headingMag inp sid < 1/4 then none
  else some (atan2 (headingAccum inp sid).1.2 (headingAccum inp sid).1.1)

theorem unitVec_eq (dx dy : ℝ) (h : ¬ (dx = 0 ∧ dy = 0)) :
    unitVec dx dy =
      (dx / Real.sqrt (dx ^ 2 + dy ^ 2), dy / Real.sqrt (dx ^ 2 + dy ^ 2)) := by
  have hz : (⟨dx, dy⟩ : ℂ) ≠ 0 := by
    intro h0
    exact h ⟨congrArg Complex.re h0, congrArg Complex.im h0⟩
  have habs : Complex.abs ⟨dx, dy⟩ = Real.sqrt (dx ^ 2 + dy ^ 2) := by
    rw [Complex.abs_apply, Complex.normSq_mk]
    ring_nf
  unfold unitVec atan2
  rw [Complex.cos_arg hz, Complex.sin_arg, habs]

/-- **C8 amended** (Heading Estimator emission threshold): a preferred
heading is emitted iff at least one consecutive stop pair (with planar
displacement at or above the negligible epsilon) was accumulated at the
stop and the mean resultant length of its accumulated unit vectors is
at least 0.25 (the threshold itself included); the emitted heading is
the `atan2` direction of the summed unit vectors. -/
theorem C8_heading_threshold (inp : HeadingInput) (sid : String) (θ : ℝ) :
    build_preferred_headings inp sid = some θ ↔
      (1 ≤ (headingAccum inp sid).2 ∧ 1/4 ≤ headingMag inp sid ∧
        θ = atan2 (headingAccum inp sid).1.2 (headingAccum inp sid).1.1) := by
  unfold build_preferred_headings
  by_cases hn : (headingAccum inp sid).2 = 0
  · rw [if_pos hn]
    constructor
    · intro h
      exact Option.noConfusion h
    · rintro ⟨h1, _, _⟩
      omega
  · rw [if_neg hn]
    by_cases hm : headingMag inp sid < 1/4
    · rw [if_pos hm]
      constructor
      · intro h
        exact Option.noConfusion h
      · rintro ⟨_, h2, _⟩
        exact absurd hm (not_lt.mpr h2)
    · rw [if_neg hm]
      constructor
      · intro h
        exact ⟨by omega, not_lt.mp hm, (Option.some.inj h).symm⟩
      · rintro ⟨_, _, h3⟩
        rw [h3]

end MapStops


namespace MapStops

/-- Stop locations for the C8 boundary scenario: eight displacement
targets around stop `A` whose unit vectors sum to `(2, 0)`, making the
mean resultant length exactly 2/8 = 0.25. -/
noncomputable def exXYC8 : String → Option (ℝ × ℝ) := fun s =>
  if s = "A" then some (0, 0)
  else if s = "B1" then some (1, 0)
  else if s = "B2" then some (1, 0)
  else if s = "B3" then some (1, 0)
  else if s = "B4" then some (-1, 0)
  else if s = "B5" then some (3, 4)
  else if s = "B6" then some (3, -4)
  else if s = "B7" then some (-3, 4)
  else if s = "B8" then some (-3, -4)
  else none

noncomputable def exHeadC8 : HeadingInput where
  stopXY := exXYC8
  patterns := [["A", "B1"], ["A", "B2"], ["A", "B3"], ["A", "B4"],
               ["A", "B5"], ["A", "B6"], ["A", "B7"], ["A", "B8"]]
  stopPref := ""

theorem exHead_accum : headingAccum exHeadC8 "A" = ((2, 0), 8) := by
  have u1 : unitVec 1 0 = (1, 0) := by
    rw [unitVec_eq 1 0 (by norm_num)]
    rw [show ((1 : ℝ) ^ 2 + 0 ^ 2) = 1 ^ 2 by norm_num, Real.sqrt_sq (by norm_num)]
    norm_num
  have u2 : unitVec (-1) 0 = (-1, 0) := by
    rw [unitVec_eq (-1) 0 (by norm_num)]
    rw [show (((-1) : ℝ) ^ 2 + 0 ^ 2) = 1 ^ 2 by norm_num, Real.sqrt_sq (by norm_num)]
    norm_num
  have s25 : Real.sqrt ((3 : ℝ) ^ 2 + 4 ^ 2) = 5 := by
    rw [show ((3 : ℝ) ^ 2 + 4 ^ 2) = 5 ^ 2 by norm_num, Real.sqrt_sq (by norm_num)]
  have u3 : unitVec 3 4 = (3 / 5, 4 / 5) := by
    rw [unitVec_eq 3 4 (by norm_num), s25]
  have u4 : unitVec 3 (-4) = (3 / 5, -(4 / 5)) := by
    rw [unitVec_eq 3 (-4) (by norm_num)]
    rw [show ((3 : ℝ) ^ 2 + (-4) ^ 2) = 5 ^ 2 by norm_num, Real.sqrt_sq (by norm_num)]
    norm_num
  have u5 : unitVec (-3) 4 = (-(3 / 5), 4 / 5) := by
    rw [unitVec_eq (-3) 4 (by norm_num)]
    rw [show (((-3) : ℝ) ^ 2 + 4 ^ 2) = 5 ^ 2 by norm_num, Real.sqrt_sq (by norm_num)]
    norm_num
  have u6 : unitVec (-3) (-4) = (-(3 / 5), -(4 / 5)) := by
    rw [unitVec_eq (-3) (-4) (by norm_num)]
    rw [show (((-3) : ℝ) ^ 2 + (-4) ^ 2) = 5 ^ 2 by norm_num, Real.sqrt_sq (by norm_num)]
    norm_num
  have hstep : ∀ (acc : (ℝ × ℝ) × ℕ) (bid : String) (bx by2 : ℝ),
      exXYC8 bid = some (bx, by2) → ¬ (|bx - 0| + |by2 - 0| < 1/1000000) →
      headingStep exHeadC8 "A" acc ("A", bid) =
        ((acc.1.1 + (unitVec (bx - 0) (by2 - 0)).1,
          acc.1.2 + (unitVec (bx - 0) (by2 - 0)).2), acc.2 + 1) := by
    intro acc bid bx by2 hb heps
    unfold headingStep
    have hA : (exHeadC8.stopPref ++ "A" : String) = "A" := rfl
    have hB : (exHeadC8.stopPref ++ bid : String) = bid := by
      cases bid
      rfl
    rw [hA, hB, if_pos rfl]
    have hxa : exHeadC8.stopXY "A" = some (0, 0) := rfl
    rw [show exHeadC8.stopXY = exXYC8 from rfl, hb,
      show exXYC8 "A" = some ((0 : ℝ), (0 : ℝ)) from rfl]
    dsimp only []
    rw [if_neg heps]
  have hflat : exHeadC8.patterns.flatMap pairsOf =
      [("A", "B1"), ("A", "B2"), ("A", "B3"), ("A", "B4"),
       ("A", "B5"), ("A", "B6"), ("A", "B7"), ("A", "B8")] := rfl
  have s1 : headingStep exHeadC8 "A" ((0, 0), 0) ("A", "B1") = ((1, 0), 1) := by
    rw [hstep ((0, 0), 0) "B1" 1 0 rfl (by norm_num)]
    norm_num [u1]
  have s2 : headingStep exHeadC8 "A" ((1, 0), 1) ("A", "B2") = ((2, 0), 2) := by
    rw [hstep ((1, 0), 1) "B2" 1 0 rfl (by norm_num)]
    norm_num [u1]
  have s3 : headingStep exHeadC8 "A" ((2, 0), 2) ("A", "B3") = ((3, 0), 3) := by
    rw [hstep ((2, 0), 2) "B3" 1 0 rfl (by norm_num)]
    norm_num [u1]
  have s4 : headingStep exHeadC8 "A" ((3, 0), 3) ("A", "B4") = ((2, 0), 4) := by
    rw [hstep ((3, 0), 3) "B4" (-1) 0 rfl (by norm_num)]
    norm_num [u2]
  have s5 : headingStep exHeadC8 "A" ((2, 0), 4) ("A", "B5") = ((13/5, 4/5), 5) := by
    rw [hstep ((2, 0), 4) "B5" 3 4 rfl (by norm_num)]
    norm_num [u3]
  have s6 : headingStep exHeadC8 "A" ((13/5, 4/5), 5) ("A", "B6") = ((16/5, 0), 6) := by
    rw [hstep ((13/5, 4/5), 5) "B6" 3 (-4) rfl (by norm_num)]
    norm_num [u4]
  have s7 : headingStep exHeadC8 "A" ((16/5, 0), 6) ("A", "B7") = ((13/5, 4/5), 7) := by
    rw [hstep ((16/5, 0), 6) "B7" (-3) 4 rfl (by norm_num)]
    norm_num [u5]
  have s8 : headingStep exHeadC8 "A" ((13/5, 4/5), 7) ("A", "B8") = ((2, 0), 8) := by
    rw [hstep ((13/5, 4/5), 7) "B8" (-3) (-4) rfl (by norm_num)]
    norm_num [u6]
  unfold headingAccum
  rw [hflat]
  simp only [List.foldl_cons, List.foldl_nil]
  rw [s1, s2, s3, s4, s5, s6, s7, s8]

theorem exHead_mag : headingMag exHeadC8 "A" = 1/4 := by
  have h4 : Real.sqrt ((2 : ℝ) ^ 2 + 0 ^ 2) = 2 := by
    rw [show ((2 : ℝ) ^ 2 + 0 ^ 2) = 2 ^ 2 by norm_num, Real.sqrt_sq (by norm_num)]
  unfold headingMag
  rw [exHead_accum]
  show Real.sqrt ((2 : ℝ) ^ 2 + (0 : ℝ) ^ 2) / ((8 : ℕ) : ℝ) = 1/4
  rw [h4]
  norm_num

/-- **C8 counterexample**: at stop `A`, eight pairs are accumulated and
the mean resultant length is *exactly* 0.25 — not above it — yet a
preferred heading (0) is emitted, because the code drops a stop only
when the magnitude is strictly below 0.25 (`if mag < 0.25: continue`).
The claim's "exceeds 0.25" emission condition is therefore false. -/
theorem C8_counterexample :
    build_preferred_headings exHeadC8 "A" = some 0 ∧
    headingMag exHeadC8 "A" = 1/4 ∧
    ¬ (1/4 : ℝ) < headingMag exHeadC8 "A" ∧
    1 ≤ (headingAccum exHeadC8 "A").2 := by
  have hmag := exHead_mag
  have hatan : atan2 0 2 = 0 := by
    unfold atan2
    rw [Complex.arg_eq_zero_iff]
    constructor <;> norm_num
  refine ⟨?_, hmag, by rw [hmag]; norm_num, by rw [exHead_accum]; norm_num⟩
  unfold build_preferred_headings
  rw [exHead_accum, hmag]
  have hn : ¬ ((((2 : ℝ), (0 : ℝ)), (8 : ℕ)) : (ℝ × ℝ) × ℕ).2 = 0 := by norm_num
  rw [if_neg hn, if_neg (by norm_num : ¬ ((1:ℝ)/4 < 1/4))]
  show some (atan2 0 2) = some 0
  rw [hatan]

end MapStops

end ChatCity


/-! ## `find_nearest_edge` (map_stops_to_network_optimized.py, lines 54-98 and 181-288)

The network is abstracted as the query function `q` standing for
`net.getNeighboringLanes(x, y, radius)` at the stop's fixed converted
coordinates: for each radius it yields the candidate `(lane, dist)`
pairs. A lane carries the fields the matcher inspects; `allowed`
stands for `any(lane.allows(cls) for cls in allowed_classes)` with the
call's fixed `require_vclasses`, and `closestPos` for
`lane.getClosestLanePosAndDist((x, y))[0]`. -/

namespace ChatCity.MapStops

structure Lane where
  edgeId : String
  laneId : String
  func : String
  allowed : Bool
  hasOutgoing : Bool
  hasIncoming : Bool
  shape : List (ℚ × ℚ)
  closestPos : ℚ
deriving DecidableEq

/-- `invalid_funcs` of `_is_valid_lane` (source line 62). -/
def invalidFuncs : List String := ["internal", "connector", "crossing", "walkingarea"]

/-- `_is_valid_lane` (source lines 54-77): rejects internal edges
(id starting with `:`), invalid functions, lanes allowing none of the
routable classes, and - only when `require_connectivity` - edges with
no outgoing or no incoming connection. -/
def is_valid_lane (lane : Lane) (require_connectivity : Bool) : Bool :=
  if lane.edgeId.data.head? = some ':' then false
  else if lane.func ∈ invalidFuncs then false
  else if !lane.allowed then false
  else if require_connectivity && (!lane.hasOutgoing || !lane.hasIncoming) then false
  else true

/-- `_lane_heading_rad` (source lines 80-93): `None` for a shape of
fewer than two points or a negligible end-to-end displacement,
otherwise `atan2(dy, dx)` of the first-to-last displacement. -/
noncomputable def lane_heading_rad (lane : Lane) : Option ℝ :=
  if lane.shape.length < 2 then none
  else
    match lane.shape.head?, lane.shape.getLast? with
    | some (x0, y0), some (x1, y1) =>
        if |x1 - x0| + |y1 - y0| < 1/1000000000 then none
        else some (atan2 ((y1 - y0 : ℚ) : ℝ) ((x1 - x0 : ℚ) : ℝ))
    | _, _ => none

/-- Python float `%` with a positive modulus: `a - b * floor(a / b)`. -/
noncomputable def fmod (a b : ℝ) : ℝ := a - b * ⌊a / b⌋

/-- `_angle_diff_rad` (source lines 96-98). -/
noncomputable def angle_diff_rad (a b : ℝ) : ℝ :=
  |fmod (a - b + Real.pi) (2 * Real.pi) - Real.pi|

/-- The `scored` list of `pick_lane` (source lines 223-240): tuples
`(dist, d_ang, lane)` for candidates passing the validity filter and
- when a preferred heading is given - the heading-difference cap. -/
noncomputable def scoredOf (ph : Option ℝ) (maxDiff : ℝ) (rc : Bool)
    (candidates : List (Lane × ℚ)) : List (ℝ × ℝ × Lane) :=
  candidates.filterMap (fun c =>
    if is_valid_lane c.1 rc then
      match ph with
      | none => some ((c.2 : ℝ), 0, c.1)
      | some θ =>
        match lane_heading_rad c.1 with
        | none => none
        | some h =>
          if maxDiff < angle_diff_rad h θ then none
          else some ((c.2 : ℝ), angle_diff_rad h θ, c.1)
    else none)

/-- The first element of a list minimizing the key, ties to the
earlier element: exactly `sorted(key=...)[0]` of a stable sort. -/
noncomputable def firstMinBy {α : Type} (key : α → ℝ × ℝ) (l : List α) : Option α :=
  l.foldl (fun acc x =>
    match acc with
    | none => some x
    | some b =>
      if (Classical.propDecidable
            ((key x).1 < (key b).1 ∨
              ((key x).1 = (key b).1 ∧ (key x).2 < (key b).2))).decide
      then some x else some b) none

/-- `pick_lane` (source lines 222-246): stable sort of the scored list
by `(d_ang, dist)` and return of the head's `(lane, dist)`. -/
noncomputable def pick_lane (ph : Option ℝ) (maxDiff : ℝ)
    (candidates : List (Lane × ℚ)) (rc : Bool) : Option (Lane × ℝ) :=
  match firstMinBy (fun t => (t.2.1, t.1)) (scoredOf ph maxDiff rc candidates) with
  | none => none
  | some (dist, _, lane) => some (lane, dist)

/-- The `scored` list of `pick_lane_ignore_heading` (source lines 261-269). -/
def scoredIH (rc : Bool) (candidates : List (Lane × ℚ)) : List (ℚ × Lane) :=
  candidates.filterMap (fun c => if is_valid_lane c.1 rc then some (c.2, c.1) else none)

/-- First minimum by distance, ties to the earlier element. -/
def firstMinQ (l : List (ℚ × Lane)) : Option (ℚ × Lane) :=
  l.foldl (fun acc x =>
    match acc with
    | none => some x
    | some b => if x.1 < b.1 then some x else some b) none

/-- `pick_lane_ignore_heading` (source lines 260-274): validity filter
only, distance-only ranking. -/
def pick_lane_ignore_heading (rc : Bool) (candidates : List (Lane × ℚ)) :
    Option (Lane × ℚ) :=
  match firstMinQ (scoredIH rc candidates) with
  | none => none
  | some (dist, lane) => some (lane, dist)

/-- The radius ladder (source lines 207-211): the defaults truncated to
`max_radius` when that is positive, `[int(max_radius)]` if the
truncation is empty. -/
def radiusSteps (maxRadius : ℚ) : List ℚ :=
  if 0 < maxRadius then
    let rs := [100, 500, 1000, 2000, 4000].filter (fun r => r ≤ maxRadius)
    if rs = [] then [((⌊maxRadius⌋ : ℤ) : ℚ)] else rs
  else [100, 500, 1000, 2000, 4000]

/-- The initial query loop (source lines 213-217): the first radius of
the ladder with a non-empty candidate list, with that list. -/
def firstNonempty (q : ℚ → List (Lane × ℚ)) : List ℚ → Option (ℚ × List (Lane × ℚ))
  | [] => none
  | r :: rs =>
    match q r with
    | [] => firstNonempty q rs
    | c :: cs => some (r, c :: cs)

/-- The connectivity-relaxed retry loop (source lines 252-256): widest
to narrowest radius, re-querying and re-picking with
`require_connectivity=False`; `inl` a found `(lane, dist)`, `inr` the
value the mutable `lanes` variable holds when the loop ends empty. -/
noncomputable def relaxLoop (q : ℚ → List (Lane × ℚ)) (ph : Option ℝ) (maxDiff : ℝ) :
    List (Lane × ℚ) → List ℚ → (Lane × ℝ) ⊕ List (Lane × ℚ)
  | lanes, [] => Sum.inr lanes
  | _, r :: rs =>
    match pick_lane ph maxDiff (q r) false with
    | some (lane, dist) => Sum.inl (lane, dist)
    | none => relaxLoop q ph maxDiff (q r) rs

/-- `find_nearest_edge` (source lines 181-288): ladder query, strict
pick, connectivity-relaxed retry, heading-free retry on whatever the
`lanes` variable last held, else unmatched (`None`). The result is
`(edge_id, lane_id, pos, distance)`. -/
noncomputable def find_nearest_edge (q : ℚ → List (Lane × ℚ)) (maxRadius : ℚ)
    (ph : Option ℝ) (maxDiff : ℝ) : Option (String × String × ℚ × ℝ) :=
  match firstNonempty q (radiusSteps maxRadius) with
  | none => none
  | some (_, lanes0) =>
    match pick_lane ph maxDiff lanes0 true with
    | some (lane, dist) => some (lane.edgeId, lane.laneId, lane.closestPos, dist)
    | none =>
      match relaxLoop q ph maxDiff lanes0 (radiusSteps maxRadius).reverse with
      | Sum.inl (lane, dist) => some (lane.edgeId, lane.laneId, lane.closestPos, dist)
      | Sum.inr lanesF =>
        match pick_lane_ignore_heading false lanesF with
        | some (lane, dist) => some (lane.edgeId, lane.laneId, lane.closestPos, (dist : ℝ))
        | none => none

theorem relaxLoop_inr (q : ℚ → List (Lane × ℚ)) (ph : Option ℝ) (maxDiff : ℝ) :
    ∀ (l : List ℚ) (init lanes : List (Lane × ℚ)),
      relaxLoop q ph maxDiff init l = Sum.inr lanes →
      (l = [] ∧ lanes = init) ∨ (∃ r, l.getLast? = some r ∧ lanes = q r) := by
  intro l
  induction l with
  | nil =>
    intro init lanes h
    exact Or.inl ⟨rfl, (Sum.inr.inj h).symm⟩
  | cons r rs ih =>
    intro init lanes h
    rw [relaxLoop] at h
    cases hp : pick_lane ph maxDiff (q r) false with
    | some v =>
      rw [hp] at h
      exact absurd h (by cases v; simp)
    | none =>
      rw [hp] at h
      rcases ih (q r) lanes h with ⟨hnil, hl⟩ | ⟨r2, hlast, hl⟩
      · subst hnil
        exact Or.inr ⟨r, rfl, hl⟩
      · refine Or.inr ⟨r2, ?_, hl⟩
        rw [List.getLast?_cons, hlast]
        cases rs with
        | nil => exact absurd hlast (by simp)
        | cons a t => simp [List.getLast?_cons] at hlast ⊢

end ChatCity.MapStops

namespace ChatCity.MapStops

/-- **C5 amended** (Lane Matcher fallback order): when the
heading-constrained pick over the first non-empty ladder radius and
the widest-to-narrowest connectivity-relaxed retry both fail, the
final heading-free retry (distance-only ranking, vehicle-class filter,
relaxed connectivity) runs over the candidates of the NARROWEST ladder
radius only - the value the `lanes` variable holds after the retry
loop's last iteration - not over all already-queried radii; the stop
is unmatched exactly when that single-radius retry also yields
nothing. -/
theorem C5_fallback_order (q : ℚ → List (Lane × ℚ)) (maxRadius : ℚ)
    (ph : Option ℝ) (maxDiff : ℝ) (r0 : ℚ) (lanes0 lanesF : List (Lane × ℚ))
    (h0 : firstNonempty q (radiusSteps maxRadius) = some (r0, lanes0))
    (h1 : pick_lane ph maxDiff lanes0 true = none)
    (h2 : relaxLoop q ph maxDiff lanes0 (radiusSteps maxRadius).reverse = Sum.inr lanesF) :
    (∃ r, (radiusSteps maxRadius).head? = some r ∧ lanesF = q r) ∧
    find_nearest_edge q maxRadius ph maxDiff =
      (match pick_lane_ignore_heading false lanesF with
       | some (lane, dist) => some (lane.edgeId, lane.laneId, lane.closestPos, (dist : ℝ))
       | none => none) := by
  constructor
  · rcases relaxLoop_inr q ph maxDiff (radiusSteps maxRadius).reverse lanes0 lanesF h2 with
      ⟨hnil, _⟩ | ⟨r, hlast, hl⟩
    · exfalso
      have hsteps : radiusSteps maxRadius = [] := by
        rwa [List.reverse_eq_nil_iff] at hnil
      rw [hsteps] at h0
      exact Option.noConfusion h0
    · exact ⟨r, by rwa [List.getLast?_reverse] at hlast, hl⟩
  · rw [find_nearest_edge, h0]
    dsimp only []
    rw [h1]
    dsimp only []
    rw [h2]

/-- The C5 scenario's lane: class-allowed, connected, ordinary
function, but an EMPTY shape, so `_lane_heading_rad` is `None` and
every heading-constrained pick skips it. -/
def exLaneC5 : Lane :=
  { edgeId := "E1", laneId := "E1_0", func := "", allowed := true,
    hasOutgoing := true, hasIncoming := true, shape := [], closestPos := 7 }

/-- The C5 scenario's network query: the lane appears (at distance
1500) for every radius of at least 2000 and nothing appears below. -/
def exQC5 : ℚ → List (Lane × ℚ) := fun r =>
  if 2000 ≤ r then [(exLaneC5, 1500)] else []

/-- **C5 counterexample**: with the default ladder the first non-empty
radius is 2000 and the heading-constrained phases all skip the lane
(its heading is `None`), so the code reaches the final retry with
`lanes = q(100) = []` and reports the stop unmatched - although the
heading-free pick over the already-queried radius 2000 finds the
lane, which is exactly what the claim's step 7 promises. -/
theorem C5_counterexample :
    find_nearest_edge exQC5 4000 (some 0) (Real.pi / 2) = none ∧
    (2000 : ℚ) ∈ radiusSteps 4000 ∧
    pick_lane_ignore_heading false (exQC5 2000) = some (exLaneC5, 1500) ∧
    pick_lane_ignore_heading false (exQC5 100) = none := by
  refine ⟨rfl, by decide, ?_, rfl⟩
  have h : exQC5 2000 = [(exLaneC5, 1500)] := by norm_num [exQC5]
  rw [h]
  rfl

theorem C5_fallback_order_witness :
    ((∃ r, (radiusSteps 4000).head? = some r ∧ ([] : List (Lane × ℚ)) = exQC5 r) ∧
      find_nearest_edge exQC5 4000 (some 0) (Real.pi / 2) =
        (match pick_lane_ignore_heading false ([] : List (Lane × ℚ)) with
         | some (lane, dist) => some (lane.edgeId, lane.laneId, lane.closestPos, (dist : ℝ))
         | none => none)) := by
  exact C5_fallback_order exQC5 4000 (some 0) (Real.pi / 2) 2000 [(exLaneC5, 1500)] []
    rfl rfl rfl

end ChatCity.MapStops
